import Mathlib

/-!
Verification development for the go-automapper reflective mapping engine.

The Go source is shallowly embedded: Go struct/slice/map/pointer values become
an inductive `Value`, Go `reflect.Type` becomes `Ty`, and the engine functions
of engine.go / mapper.go / optimizations.go and the type-metadata cache are
translated one-to-one into fuel-indexed Lean functions.  Machine integers are
modelled as bit payloads (`Nat`); strings and floats are opaque payloads, which
is faithful because the engine only ever copies or kind-converts primitive
values.  Go panics (reflect.Value.Set on a non-assignable value) are modelled
as a dedicated error constructor.  Names follow the source except where the
word "unsafe" had to be avoided: `optRaw`/`useRaw`/`mapMemberRaw`/`rawCopy`
model OptimizationUnsafe/useUnsafe/mapMemberUnsafe/unsafeCopyField.
-/

/-- Go primitive kinds, exactly the list accepted by `isPrimitiveKind`
in optimizations.go. -/
inductive PrimKind where
  | bool | int | int8 | int16 | int32 | int64
  | uint | uint8 | uint16 | uint32 | uint64
  | float32 | float64 | string
deriving DecidableEq, Repr

mutual
/-- Model of Go types as seen by the mapper: primitives, named struct types
with declared field lists (name, anonymous flag, type), slices, pointers and
maps. -/
inductive Ty where
  | prim (k : PrimKind)
  | strct (name : String) (fields : FieldList)
  | slice (elem : Ty)
  | ptr (elem : Ty)
  | tmap (key val : Ty)
deriving DecidableEq, Repr

/-- Declared struct fields: name, Anonymous flag, field type. -/
inductive FieldList where
  | nil
  | cons (name : String) (anon : Bool) (ty : Ty) (rest : FieldList)
deriving DecidableEq, Repr
end

mutual
/-- Model of Go runtime values.  A nil slice/map/pointer is distinguished from
an empty one, mirroring reflect.  Primitive payloads are opaque bit patterns. -/
inductive Value where
  | prim (k : PrimKind) (bits : Nat)
  | strct (fields : ValueList)
  | sliceNil
  | sliceV (elems : ValueList)
  | ptrNil
  | ptrV (v : Value)
  | mapNil
  | mapV (entries : EntryList)
deriving DecidableEq, Repr

inductive ValueList where
  | nil
  | cons (v : Value) (rest : ValueList)
deriving DecidableEq, Repr

inductive EntryList where
  | nil
  | cons (k v : Value) (rest : EntryList)
deriving DecidableEq, Repr
end

def ValueList.toList : ValueList → List Value
  | .nil => []
  | .cons v rest => v :: rest.toList

def ValueList.ofList : List Value → ValueList
  | [] => .nil
  | v :: rest => .cons v (ValueList.ofList rest)

def ValueList.get? : ValueList → Nat → Option Value
  | .nil, _ => none
  | .cons v _, 0 => some v
  | .cons _ rest, i + 1 => rest.get? i

def ValueList.set : ValueList → Nat → Value → ValueList
  | .nil, _, _ => .nil
  | .cons _ rest, 0, nv => .cons nv rest
  | .cons v rest, i + 1, nv => .cons v (rest.set i nv)

def EntryList.toList : EntryList → List (Value × Value)
  | .nil => []
  | .cons k v rest => (k, v) :: rest.toList

def EntryList.ofList : List (Value × Value) → EntryList
  | [] => .nil
  | (k, v) :: rest => .cons k v (EntryList.ofList rest)

def FieldList.names : FieldList → List String
  | .nil => []
  | .cons n _ _ rest => n :: rest.names

def FieldList.noAnon : FieldList → Bool
  | .nil => true
  | .cons _ a _ rest => !a && rest.noAnon

/-- The i-th declared field of a field list (Go `Type.Field(i)`). -/
def fieldDeclAt : FieldList → Nat → Option (String × Bool × Ty)
  | .nil, _ => none
  | .cons n a t _, 0 => some (n, a, t)
  | .cons _ _ _ rest, i + 1 => fieldDeclAt rest i

/-- The i-th declared field of a struct type. -/
def tyField (t : Ty) (i : Nat) : Option (String × Bool × Ty) :=
  match t with
  | .strct _ fl => fieldDeclAt fl i
  | _ => none

/-- One-level pointer unwrap, as done by getTypeInfo / CreateMap / flattening. -/
def unwrapPtrOne : Ty → Ty
  | .ptr e => e
  | t => t

/-- Model of reflect.Kind as consumed by the optimizer. -/
inductive RKind where
  | prim (k : PrimKind)
  | rstruct | rslice | rptr | rmap
deriving DecidableEq, Repr

def kindOfTy : Ty → RKind
  | .prim k => .prim k
  | .strct _ _ => .rstruct
  | .slice _ => .rslice
  | .ptr _ => .rptr
  | .tmap _ _ => .rmap

/-- optimizations.go isPrimitiveKind: the fourteen scalar/string kinds. -/
def isPrimitiveKind : RKind → Bool
  | .prim _ => true
  | _ => false

/-- Go assignability for the types of this model: identical types.
(Interface assignability is out of scope; no interface types are modelled.) -/
def assignableTo (s d : Ty) : Bool := s == d

def isNumericPrim : PrimKind → Bool
  | .bool | .string => false
  | _ => true

/-- Go convertibility restricted to this model: identical types, numeric
kind changes, and struct types with identical underlying field lists.
(String/rune conversions are not modelled; no claim exercises them.) -/
def convertibleTo (s d : Ty) : Bool :=
  s == d ||
    (match s, d with
     | .prim ks, .prim kd => isNumericPrim ks && isNumericPrim kd
     | .strct _ fs, .strct _ fd => fs == fd
     | _, _ => false)

/-- Bit truncation performed by a numeric conversion.  Float rounding is not
modelled bit-precisely (floats stay opaque); integer conversions truncate to
the destination width as the machine does. -/
def truncPrim (k : PrimKind) (b : Nat) : Nat :=
  match k with
  | .int8 | .uint8 => b % 2 ^ 8
  | .int16 | .uint16 => b % 2 ^ 16
  | .int32 | .uint32 => b % 2 ^ 32
  | .int | .int64 | .uint | .uint64 => b % 2 ^ 64
  | _ => b

/-- reflect.Value.Convert for the conversions admitted by `convertibleTo`:
identical underlying data for struct conversions, payload truncation for
numeric kind changes. -/
def convertValue (v : Value) (dTy : Ty) : Value :=
  match v, dTy with
  | .prim _ b, .prim dk => .prim dk (truncPrim dk b)
  | _, _ => v

mutual
/-- The zero value of a type (reflect.Zero / reflect.New semantics: nil
slices, nil maps, nil pointers, zero scalars). -/
def zeroValue : Ty → Value
  | .prim k => .prim k 0
  | .strct _ fl => .strct (zeroFields fl)
  | .slice _ => .sliceNil
  | .ptr _ => .ptrNil
  | .tmap _ _ => .mapNil

def zeroFields : FieldList → ValueList
  | .nil => .nil
  | .cons _ _ t rest => .cons (zeroValue t) (zeroFields rest)
end

/-- engine.go derefValue, tracking the static type alongside the value:
fully unwraps pointers, nil pointer gives an invalid (absent) result. -/
def derefTV : Ty → Value → Option (Ty × Value)
  | .ptr t, .ptrV v => derefTV t v
  | .ptr _, .ptrNil => none
  | t, v => some (t, v)

/-- Direct field read on a struct value. -/
def getFieldV (v : Value) (i : Nat) : Option Value :=
  match v with
  | .strct fs => fs.get? i
  | _ => none

/-- Field read on a struct (type, value) pair. -/
def structFieldTV : Ty → Value → Nat → Option (Ty × Value)
  | .strct _ fl, .strct fs, idx =>
    match fieldDeclAt fl idx, fs.get? idx with
    | some fd, some fv => some (fd.2.2, fv)
    | _, _ => none
  | _, _, _ => none

/-- One step of the index walk in engine.go getNestedField: unwrap a single
pointer level (the source checks `Kind() == Ptr` once per index), require a
struct, read field `idx`. -/
def stepFieldTV : Ty → Value → Nat → Option (Ty × Value)
  | .ptr te, .ptrV ve, idx => structFieldTV te ve idx
  | .ptr _, .ptrNil, _ => none
  | t, v, idx => structFieldTV t v idx

/-- The loop of engine.go getNestedField / reflect FieldByIndex. -/
def fieldByIndexWalk : Ty → Value → List Nat → Option (Ty × Value)
  | t, v, [] => some (t, v)
  | t, v, i :: rest =>
    match stepFieldTV t v i with
    | none => none
    | some (t', v') => fieldByIndexWalk t' v' rest

/-- engine.go getNestedField: full pointer dereference, then the index walk. -/
def getNestedField (t : Ty) (v : Value) (idxs : List Nat) : Option (Ty × Value) :=
  match derefTV t v with
  | none => none
  | some (t0, v0) => fieldByIndexWalk t0 v0 idxs

mutual
/-- Write a (possibly nested) field of a struct value, mirroring a write
through reflect FieldByIndex; intermediate non-nil pointers are traversed. -/
def setNestedField : Value → List Nat → Value → Value
  | _, [], nv => nv
  | .ptrV pv, idxs, nv => .ptrV (setNestedField pv idxs nv)
  | .strct fs, i :: rest, nv => .strct (setFieldsAt fs i rest nv)
  | v, _, _ => v

/-- Walk to position `i` of the field list and continue the nested write. -/
def setFieldsAt : ValueList → Nat → List Nat → Value → ValueList
  | .nil, _, _, _ => .nil
  | .cons v vrest, 0, rest, nv => .cons (setNestedField v rest nv) vrest
  | .cons v vrest, i + 1, rest, nv => .cons v (setFieldsAt vrest i rest nv)
end

/-- First declared field with the given name, with its index (used to model
reflect FieldByName for the non-embedded lookups the engine performs). -/
def fieldIndexByName : FieldList → String → Nat → Option (Nat × Ty)
  | .nil, _, _ => none
  | .cons n _ t rest, target, i =>
    if n == target then some (i, t) else fieldIndexByName rest target (i + 1)

/-- srcVal.FieldByName(name) together with the field's type. -/
def fieldByNameTV (t : Ty) (v : Value) (n : String) : Option (Ty × Value) :=
  match t, v with
  | .strct _ fl, .strct fs =>
    match fieldIndexByName fl n 0 with
    | some (i, ft) => (fs.get? i).map (fun fv => (ft, fv))
    | none => none
  | _, _ => none

/-! ## Type metadata cache (src/unnamed/part_000) -/

/-- Go `field.IsExported()`: the name starts with an upper-case letter
(ASCII model of unicode.IsUpper). -/
def isExportedName (s : String) : Bool :=
  match s.data with
  | [] => false
  | c :: _ => c.isUpper

/-- Loop of splitPascalCase.  The current word is empty exactly at position 0,
so the source's `i > 0` test is the non-emptiness of `cur`. -/
def splitPascalAux : List Char → List Char → List String → List String
  | [], cur, ws => if cur.isEmpty then ws else ws ++ [String.mk cur]
  | r :: rest, cur, ws =>
    if r.isUpper && !cur.isEmpty then splitPascalAux rest [r] (ws ++ [String.mk cur])
    else splitPascalAux rest (cur ++ [r]) ws

/-- splitPascalCase: "CustomerName" becomes ["Customer", "Name"]. -/
def splitPascalCase (s : String) : List String :=
  if s.data.isEmpty then [] else splitPascalAux s.data [] []

/-- Cached information about a struct field (fieldInfo). -/
structure FieldInfo where
  name : String
  index : List Nat
  fieldType : Ty
  canSet : Bool
deriving DecidableEq, Repr

/-- Cached information about a type (typeInfo).  The name map is modelled by
`lookupFieldByName` over the ordered list, which reproduces Go map
insert-overwrite semantics. -/
structure TypeInfo where
  typ : Ty
  fields : List FieldInfo
deriving DecidableEq, Repr

/-- fieldsByName lookup: the last inserted binding for a name wins, exactly
as for the Go map built alongside the fields slice. -/
def lookupFieldByName (fields : List FieldInfo) (n : String) : Option FieldInfo :=
  fields.foldl (fun acc f => if f.name == n then some f else acc) none

/-- collectFields: depth-first traversal promoting embedded/anonymous struct
fields, keeping only exported fields, in declaration order. -/
def collectFieldsT (fl : FieldList) (pos : Nat) (index : List Nat)
    (acc : List FieldInfo) : List FieldInfo :=
  match fl with
  | .nil => acc
  | .cons name anon ty rest =>
    let fieldIdx := index ++ [pos]
    let acc' :=
      if anon then
        match ty with
        | .strct _ innerFl => collectFieldsT innerFl 0 fieldIdx acc
        | .ptr (.strct _ innerFl) => collectFieldsT innerFl 0 fieldIdx acc
        | _ =>
          if isExportedName name then acc ++ [⟨name, fieldIdx, ty, true⟩] else acc
      else
        if isExportedName name then acc ++ [⟨name, fieldIdx, ty, true⟩] else acc
    collectFieldsT rest (pos + 1) index acc'

/-- buildTypeInfo: non-struct types yield an empty field list, not an error. -/
def buildTypeInfo (t : Ty) : TypeInfo :=
  match t with
  | .strct _ fl => { typ := t, fields := collectFieldsT fl 0 [] [] }
  | _ => { typ := t, fields := [] }

/-- getTypeInfo: one-level pointer unwrap, then (cached) buildTypeInfo.
The memoizing cache is transparent to results and is not modelled. -/
def getTypeInfo (t : Ty) : TypeInfo :=
  buildTypeInfo (unwrapPtrOne t)

/-! ## Errors (engine.go MappingError) -/

/-- Model of Go errors flowing through the engine.  `mapping` mirrors
MappingError (message, source/destination types, field name, wrapped inner
error); `user` is an error produced by a user callback; `panicked` models a
reflect panic (Set with a non-assignable value); `outOfFuel` is the
fuel-exhaustion marker of the embedding and is never produced with
sufficient fuel. -/
inductive MapErr where
  | outOfFuel
  | user (msg : String)
  | mapping (message : String) (srcType destType : Option Ty)
      (fieldName : String) (inner : Option MapErr)
  | panicked (msg : String)

/-- MappingError.Unwrap: expose the wrapped inner error. -/
def MapErr.unwrapInner : MapErr → Option MapErr
  | .mapping _ _ _ _ inner => inner
  | _ => none

/-! ## Mapping configuration data model (mapper.go) -/

/-- TypeConverter: receives the dynamic (type, value) of the source and the
destination type. -/
abbrev TypeConverterM := (Ty × Value) → Ty → Except MapErr (Ty × Value)

/-- ValueResolver: receives source and destination record values, returns the
dynamic (type, value) of the resolved field value. -/
abbrev ValueResolverM := Value → Value → Except MapErr (Ty × Value)

/-- BeforeAfterMapFunc / CustomMapperFunc: may mutate the destination (the new
destination is returned) and may fail. -/
abbrev HookFnM := Value → Value → Value × Option MapErr

/-- Engine result: the (possibly partially) updated destination value and an
optional error — Go mutates the destination in place, so a failing call still
leaves its earlier writes visible. -/
abbrev EngineRes := Value × Option MapErr

abbrev ConditionFuncM := Value → Bool

/-- MemberMap: the mapping configuration for a single destination field. -/
structure MemberMap where
  destField : String := ""
  destFieldIdx : List Nat := []
  srcField : String := ""
  srcFieldIdx : List Nat := []
  resolver : Option ValueResolverM := none
  converter : Option TypeConverterM := none
  condition : Option ConditionFuncM := none
  ignore : Bool := false
  useFlattening : Bool := false
  flattenPath : List String := []

/-- TypeMap: the mapping configuration between two types.  `ignoreFields` is
declared in the source but never read; it is kept for structural fidelity. -/
structure TypeMap where
  srcType : Ty
  destType : Ty
  memberMaps : List MemberMap := []
  customMapper : Option HookFnM := none
  beforeMap : List HookFnM := []
  afterMap : List HookFnM := []
  ignoreFields : List String := []

/-- MemberMapOptimized.  The source records raw byte offsets and the field
size; in this embedding the compiled copy uses the precomputed field indices
instead (the accessor-closure substitution blessed by the design notes),
which is observably the same copy. -/
structure MemberMapOptimized where
  base : MemberMap
  srcKind : Option RKind := none
  destKind : Option RKind := none
  isPrimitive : Bool := false
  directAssign : Bool := false

/-- TypeMapOptimized. -/
structure TypeMapOptimized where
  base : TypeMap
  optimizedMembers : List MemberMapOptimized := []
  specializedFn : Option HookFnM := none
  allPrimitive : Bool := false
  hasCustomLogic : Bool := false
  compiled : Bool := false

/-- OptimizationLevel; `optRaw` models OptimizationUnsafe. -/
inductive OptLevel where
  | optNone | optPooled | optRaw | optSpecialized
deriving DecidableEq, Repr

def OptLevel.toNat : OptLevel → Nat
  | .optNone => 0
  | .optPooled => 1
  | .optRaw => 2
  | .optSpecialized => 3

/-- MapperConfiguration.  The memoizing type cache is modelled by the pure
`getTypeInfo`; `useRaw` models `useUnsafe`. -/
structure MapperConfig where
  typeMaps : List ((Ty × Ty) × TypeMap) := []
  converters : List ((Ty × Ty) × TypeConverterM) := []
  allowNilColl : Bool := false
  optLevel : OptLevel := .optNone
  useRaw : Bool := false
  optimizedMaps : List ((Ty × Ty) × TypeMapOptimized) := []

/-- Lookup in a registry keyed by the exact (source, destination) type pair. -/
def lookupAssoc {α : Type} (l : List ((Ty × Ty) × α)) (s d : Ty) : Option α :=
  (l.find? (fun e => e.1 == (s, d))).map (·.2)

/-- Go map assignment on an association list: replace the (unique) binding if
the key is present, else append it. -/
def insertAssoc {α : Type} : List ((Ty × Ty) × α) → (Ty × Ty) → α → List ((Ty × Ty) × α)
  | [], k, v => [(k, v)]
  | e :: rest, k, v =>
    if e.1 == k then (k, v) :: rest else e :: insertAssoc rest k v

/-! ## Matching / flattening resolver and auto-configuration (mapper.go) -/

/-- The walk of tryFlattenMatch: look up each name part in the current type's
flattened field list, appending the found field's index path; every part but
the last must lead (after one pointer unwrap) to a struct type. -/
def tryFlattenWalk (currentType : Ty) (parts : List String) (indices : List Nat) :
    Option (List Nat) :=
  match parts with
  | [] => some indices
  | part :: rest =>
    let info := getTypeInfo currentType
    match lookupFieldByName info.fields part with
    | none => none
    | some field =>
      let indices' := indices ++ field.index
      match rest with
      | [] => some indices'
      | _ :: _ =>
        let fieldType := unwrapPtrOne field.fieldType
        match fieldType with
        | .strct _ _ => tryFlattenWalk fieldType rest indices'
        | _ => none

/-- tryFlattenMatch: build the flattening MemberMap when every part of the
split destination name resolves. -/
def tryFlattenMatch (srcType : Ty) (path : List String) (destField : FieldInfo) :
    Option MemberMap :=
  match tryFlattenWalk srcType path [] with
  | none => none
  | some indices =>
    some { destField := destField.name, destFieldIdx := destField.index,
           srcField := path.headD "", srcFieldIdx := indices,
           useFlattening := true, flattenPath := path }

/-- findSourceMember: exact name match first, else a flattening attempt when
the destination name splits into more than one part. -/
def findSourceMember (srcType : Ty) (destField : FieldInfo) : Option MemberMap :=
  let srcInfo := getTypeInfo srcType
  match lookupFieldByName srcInfo.fields destField.name with
  | some srcField =>
    some { destField := destField.name, destFieldIdx := destField.index,
           srcField := srcField.name, srcFieldIdx := srcField.index }
  | none =>
    let flattenPath := splitPascalCase destField.name
    if flattenPath.length > 1 then tryFlattenMatch srcType flattenPath destField
    else none

/-- autoConfigureMembers: one candidate rule per destination field, in
destination field order, dropping fields with no match. -/
def autoConfigureMembers (srcType destType : Ty) : List MemberMap :=
  (getTypeInfo destType).fields.filterMap (findSourceMember srcType)

/-! ## Optimization compiler (optimizations.go) -/

/-- compileSpecializedMapper: the pre-built field-copy closure.  Each member
copies the source field at its single precomputed index into the destination
field; reflect.Value.Set panics when the kinds cannot match, which the model
reports as a `panicked` error. -/
def specFoldStep (src : Value) (acc : EngineRes) (mm : MemberMapOptimized) : EngineRes :=
  match acc with
  | (d, some e) => (d, some e)
  | (d, none) =>
    if mm.base.ignore then (d, none)
    else
      let i := mm.base.srcFieldIdx.headD 0
      let j := mm.base.destFieldIdx.headD 0
      match getFieldV src i, getFieldV d j with
      | some sf, some df =>
        match sf, df with
        | .prim ks _, .prim kd _ =>
          if ks == kd then (setNestedField d [j] sf, none)
          else (d, some (.panicked "reflect: Set using value of wrong type"))
        | _, _ => (d, some (.panicked "reflect: Set using value of wrong type"))
      | _, _ => (d, some (.panicked "reflect: field index out of range"))

def specializedMapperFn (members : List MemberMapOptimized) : HookFnM :=
  fun src dest => members.foldl (specFoldStep src) (dest, none)

/-- compileOptimizedTypeMap: analyze every member rule, record kinds and
direct-assign eligibility for single-hop rules, track the all-primitive and
custom-logic flags, and at level Specialized pre-build the specialized copy
for all-primitive, no-custom-logic mappings. -/
def compileMemberStep (srcType destType : Ty)
    (acc : List MemberMapOptimized × Bool × Bool) (mm : MemberMap) :
    List MemberMapOptimized × Bool × Bool :=
  let (members, allPrim, hasCL) := acc
  let (optMm, allPrim') :=
    if mm.srcFieldIdx.length == 1 && mm.destFieldIdx.length == 1 then
      match tyField srcType (mm.srcFieldIdx.headD 0),
            tyField destType (mm.destFieldIdx.headD 0) with
      | some sf, some df =>
        let sk := kindOfTy sf.2.2
        let dk := kindOfTy df.2.2
        let isPrim := isPrimitiveKind sk && isPrimitiveKind dk
        (({ base := mm, srcKind := some sk, destKind := some dk,
            isPrimitive := isPrim,
            directAssign := (sf.2.2 == df.2.2) && isPrim } : MemberMapOptimized),
         allPrim && isPrim)
      | _, _ => ({ base := mm }, false)
    else ({ base := mm }, false)
  let hasCustom := mm.resolver.isSome || mm.converter.isSome || mm.condition.isSome
  let optMm' := if hasCustom then { optMm with isPrimitive := false } else optMm
  (members ++ [optMm'], allPrim', hasCL || hasCustom)

def compileOptimizedTypeMap (tm : TypeMap) (level : OptLevel) : TypeMapOptimized :=
  let hasCL0 := tm.customMapper.isSome || !tm.beforeMap.isEmpty || !tm.afterMap.isEmpty
  let folded := tm.memberMaps.foldl (compileMemberStep tm.srcType tm.destType) ([], true, hasCL0)
  { base := tm,
    optimizedMembers := folded.1,
    allPrimitive := folded.2.1,
    hasCustomLogic := folded.2.2,
    specializedFn :=
      if decide (OptLevel.optSpecialized.toNat ≤ level.toNat) && folded.2.1 && !folded.2.2
      then some (specializedMapperFn folded.1) else none,
    compiled := true }

/-! ## Mapper construction, CreateMap, builder handle (mapper.go, part_002) -/

def newMapperConfig : MapperConfig := {}

/-- WithAllowNullCollections. -/
def withAllowNullCollections (c : MapperConfig) : MapperConfig :=
  { c with allowNilColl := true }

/-- WithOptimizationLevel. -/
def withOptimizationLevel (level : OptLevel) (c : MapperConfig) : MapperConfig :=
  { c with optLevel := level,
           useRaw := if decide (OptLevel.optRaw.toNat ≤ level.toNat) then true else c.useRaw }

/-- WithSpecializedMappers. -/
def withSpecializedMappers (c : MapperConfig) : MapperConfig :=
  { c with optLevel := .optSpecialized, useRaw := true }

/-- CreateMap: unconditionally builds a fresh auto-configured TypeMap, stores
it under the (pointer-stripped) type pair, and compiles an optimized version
when optimization is enabled. -/
def createMapM (cfg : MapperConfig) (srcTy destTy : Ty) : MapperConfig × TypeMap :=
  let sT := unwrapPtrOne srcTy
  let dT := unwrapPtrOne destTy
  let tm : TypeMap := { srcType := sT, destType := dT,
                        memberMaps := autoConfigureMembers sT dT }
  let cfg1 := { cfg with typeMaps := insertAssoc cfg.typeMaps (sT, dT) tm }
  let cfg2 :=
    if decide (0 < cfg.optLevel.toNat) then
      { cfg1 with optimizedMaps :=
          insertAssoc cfg1.optimizedMaps (sT, dT) (compileOptimizedTypeMap tm cfg.optLevel) }
    else cfg1
  (cfg2, tm)

/-- engine.go autoCreateTypeMap: double-checked — an existing TypeMap for the
pair is returned unchanged; otherwise a fresh auto-configured TypeMap is
built, stored, and compiled when optimization is enabled. -/
def autoCreateTypeMapM (cfg : MapperConfig) (srcTy destTy : Ty) :
    MapperConfig × TypeMap :=
  match lookupAssoc cfg.typeMaps srcTy destTy with
  | some tm => (cfg, tm)
  | none =>
    let tm : TypeMap := { srcType := srcTy, destType := destTy,
                          memberMaps := autoConfigureMembers srcTy destTy }
    let cfg1 := { cfg with typeMaps := insertAssoc cfg.typeMaps (srcTy, destTy) tm }
    let om := compileOptimizedTypeMap tm cfg.optLevel
    let cfg2 :=
      if decide (0 < cfg.optLevel.toNat) then
        { cfg1 with optimizedMaps := insertAssoc cfg1.optimizedMaps (srcTy, destTy) om }
      else cfg1
    (cfg2, tm)

/-- A MemberOption is a mutation of a MemberMap. -/
abbrev MemberOptionM := MemberMap → MemberMap

def mapFromOpt (srcFieldName : String) : MemberOptionM :=
  fun mm => { mm with srcField := srcFieldName }

def mapFromFuncOpt (resolver : ValueResolverM) : MemberOptionM :=
  fun mm => { mm with resolver := some resolver }

def ignoreOpt : MemberOptionM :=
  fun mm => { mm with ignore := true }

def conditionOpt (cond : ConditionFuncM) : MemberOptionM :=
  fun mm => { mm with condition := some cond }

def useConverterOpt (conv : TypeConverterM) : MemberOptionM :=
  fun mm => { mm with converter := some conv }

def applyOpts (mm : MemberMap) (opts : List MemberOptionM) : MemberMap :=
  opts.foldl (fun m o => o m) mm

/-- Apply the options to the first member with the given destination name
(the in-place mutation performed through the builder's TypeMap pointer). -/
def applyToFirstMember : List MemberMap → String → List MemberOptionM → List MemberMap
  | [], _, _ => []
  | m :: rest, name, opts =>
    if m.destField == name then applyOpts m opts :: rest
    else m :: applyToFirstMember rest name opts

/-- ForMemberByName on a TypeMap: find or create the member map for the named
destination field, then apply the options to it. -/
def forMemberByNameTM (tm : TypeMap) (destMemberName : String)
    (opts : List MemberOptionM) : TypeMap :=
  match tm.memberMaps.find? (fun m => m.destField == destMemberName) with
  | some _ =>
    { tm with memberMaps := applyToFirstMember tm.memberMaps destMemberName opts }
  | none =>
    let destInfo := getTypeInfo tm.destType
    match lookupFieldByName destInfo.fields destMemberName with
    | some fi =>
      { tm with memberMaps := tm.memberMaps ++
          [applyOpts { destField := destMemberName, destFieldIdx := fi.index } opts] }
    | none => tm

/-- Builder mutations act through the registry entry (the Go builder holds the
same TypeMap pointer that the registry holds). -/
def updateTypeMap (cfg : MapperConfig) (sT dT : Ty) (f : TypeMap → TypeMap) :
    MapperConfig :=
  match lookupAssoc cfg.typeMaps sT dT with
  | none => cfg
  | some tm => { cfg with typeMaps := insertAssoc cfg.typeMaps (sT, dT) (f tm) }

def forMemberByNameM (cfg : MapperConfig) (sT dT : Ty) (destMemberName : String)
    (opts : List MemberOptionM) : MapperConfig :=
  updateTypeMap cfg sT dT (fun tm => forMemberByNameTM tm destMemberName opts)

/-- BeforeMap: append a before-hook.  (The Go adapter's type assertions are
transparent in this typed model.) -/
def beforeMapM (cfg : MapperConfig) (sT dT : Ty) (fn : HookFnM) : MapperConfig :=
  updateTypeMap cfg sT dT (fun tm => { tm with beforeMap := tm.beforeMap ++ [fn] })

/-- AfterMap: append an after-hook. -/
def afterMapM (cfg : MapperConfig) (sT dT : Ty) (fn : HookFnM) : MapperConfig :=
  updateTypeMap cfg sT dT (fun tm => { tm with afterMap := tm.afterMap ++ [fn] })

/-- CustomMap: install the whole-type custom transform. -/
def customMapM (cfg : MapperConfig) (sT dT : Ty) (fn : HookFnM) : MapperConfig :=
  updateTypeMap cfg sT dT (fun tm => { tm with customMapper := some fn })

/-- ConvertUsing: register a global converter for the exact type pair; the
wrapper rejects a source value whose dynamic type is not the declared source
type, as the Go type assertion does. -/
def convertUsingM (cfg : MapperConfig) (srcT destT : Ty)
    (conv : Value → Except MapErr Value) : MapperConfig :=
  let wrapped : TypeConverterM := fun sv _dt =>
    if sv.1 == srcT then (conv sv.2).map (fun r => (destT, r))
    else .error (.mapping "invalid source type for converter" none none "" none)
  { cfg with converters := insertAssoc cfg.converters (srcT, destT) wrapped }

/-! ## Mapping execution engine (engine.go) -/

/-- Run a hook list in order against the shared destination, stopping at the
first error (before/after map loops of mapStructStandard/Optimized). -/
def runHooks (hooks : List HookFnM) (src : Value) (dest : Value) : EngineRes :=
  hooks.foldl
    (fun acc h =>
      match acc with
      | (d, some e) => (d, some e)
      | (d, none) => h src d)
    (dest, none)

mutual

/-- engine.go mapValue: nil handling, pointer dereference/allocation, then the
converter check and kind dispatch (in `mapValueUnwrapped`). -/
def mapValue (cfg : MapperConfig) : Nat → Ty → Value → Ty → Value → EngineRes
  | 0, _, _, _, destVal => (destVal, some .outOfFuel)
  | fuel + 1, srcTy, srcVal, destTy, destVal =>
    match derefTV srcTy srcVal with
    | none => (destVal, none)
    | some (sTy, sVal) =>
      match destTy with
      | .ptr dElem =>
        let dInner :=
          match destVal with
          | .ptrV v => v
          | _ => zeroValue dElem
        let r := mapValueUnwrapped cfg fuel sTy sVal dElem dInner
        (.ptrV r.1, r.2)
      | _ => mapValueUnwrapped cfg fuel sTy sVal destTy destVal
termination_by structural fuel => fuel

/-- The body of mapValue after dereferencing: converter registry first, then
dispatch on the source kind, else direct assignment/conversion. -/
def mapValueUnwrapped (cfg : MapperConfig) : Nat → Ty → Value → Ty → Value → EngineRes
  | 0, _, _, _, destVal => (destVal, some .outOfFuel)
  | fuel + 1, srcTy, srcVal, destTy, destVal =>
    match lookupAssoc cfg.converters srcTy destTy with
    | some converter =>
      match converter (srcTy, srcVal) destTy with
      | .error e => (destVal, some e)
      | .ok (rTy, rVal) =>
        if assignableTo rTy destTy then (rVal, none)
        else (destVal, some (.panicked "reflect: Set using value of wrong type"))
    | none =>
      match srcTy with
      | .strct _ _ => mapStruct cfg fuel srcTy srcVal destTy destVal
      | .slice _ => mapSliceE cfg fuel srcTy srcVal destTy destVal
      | .tmap _ _ => mapMapE cfg fuel srcTy srcVal destTy destVal
      | _ =>
        if assignableTo srcTy destTy then (srcVal, none)
        else if convertibleTo srcTy destTy then (convertValue srcVal destTy, none)
        else (destVal, some (.mapping "incompatible types" (some srcTy) (some destTy) "" none))
termination_by structural fuel => fuel

/-- engine.go mapStruct: registry lookups (TypeMap, optimized map, level),
auto-creation when absent, then the optimized or standard path.  The registry
insertion of autoCreateTypeMap is not threaded back (the TypeMap used is
identical). -/
def mapStruct (cfg : MapperConfig) : Nat → Ty → Value → Ty → Value → EngineRes
  | 0, _, _, _, destVal => (destVal, some .outOfFuel)
  | fuel + 1, srcTy, srcVal, destTy, destVal =>
    let typeMapQ := lookupAssoc cfg.typeMaps srcTy destTy
    let optMapQ := lookupAssoc cfg.optimizedMaps srcTy destTy
    let tm :=
      match typeMapQ with
      | some t => t
      | none => (autoCreateTypeMapM cfg srcTy destTy).2
    match optMapQ with
    | some om =>
      if decide (0 < cfg.optLevel.toNat) && om.compiled then
        mapStructOptimized cfg fuel srcVal destVal om
      else mapStructStandard cfg fuel srcVal destVal tm
    | none => mapStructStandard cfg fuel srcVal destVal tm
termination_by structural fuel => fuel

/-- engine.go mapStructStandard: before-hooks, custom mapper (exclusive),
member loop in order with first-error exit, after-hooks. -/
def mapStructStandard (cfg : MapperConfig) : Nat → Value → Value → TypeMap → EngineRes
  | 0, _, destVal, _ => (destVal, some .outOfFuel)
  | fuel + 1, srcVal, destVal, tm =>
    match runHooks tm.beforeMap srcVal destVal with
    | (d, some e) => (d, some e)
    | (d1, none) =>
      match tm.customMapper with
      | some cm => cm srcVal d1
      | none =>
        let looped :=
          tm.memberMaps.foldl
            (memberFoldStep cfg fuel tm.srcType srcVal tm.destType) (d1, none)
        match looped with
        | (d2, some e) => (d2, some e)
        | (d2, none) => runHooks tm.afterMap srcVal d2
termination_by structural fuel => fuel

/-- optimizations.go mapStructOptimized: re-checks the original TypeMap for
hooks/custom mapper on every invocation; uses the specialized function only
when no hooks are present, else the raw-optimized or standard member loop. -/
def mapStructOptimized (cfg : MapperConfig) : Nat → Value → Value → TypeMapOptimized → EngineRes
  | 0, _, destVal, _ => (destVal, some .outOfFuel)
  | fuel + 1, srcVal, destVal, om =>
    let tm := om.base
    match runHooks tm.beforeMap srcVal destVal with
    | (d, some e) => (d, some e)
    | (d1, none) =>
      match tm.customMapper with
      | some cm => cm srcVal d1
      | none =>
        let hasHooks := !tm.beforeMap.isEmpty || !tm.afterMap.isEmpty || tm.customMapper.isSome
        let memberCore := fun (d : Value) =>
          if cfg.useRaw then
            om.optimizedMembers.foldl
              (memberRawFoldStep cfg fuel tm.srcType srcVal tm.destType) (d, none)
          else
            tm.memberMaps.foldl
              (memberFoldStep cfg fuel tm.srcType srcVal tm.destType) (d, none)
        let core :=
          match om.specializedFn with
          | some spf => if !hasHooks then spf srcVal d1 else memberCore d1
          | none => memberCore d1
        match core with
        | (d2, some e) => (d2, some e)
        | (d2, none) => runHooks tm.afterMap srcVal d2
termination_by structural fuel => fuel

/-- The accumulator step of the standard member loop: a prior error freezes
the loop, else apply mapMember to the shared destination. -/
def memberFoldStep (cfg : MapperConfig) :
    Nat → Ty → Value → Ty → EngineRes → MemberMap → EngineRes
  | 0, _, _, _, acc, _ =>
    ((match acc with
      | (d, some e) => (d, some e)
      | (d, none) => (d, some .outOfFuel)) : EngineRes)
  | fuel + 1, sT, sv, dT, acc, mm =>
    match acc with
    | (d, some e) => (d, some e)
    | (d, none) => mapMember cfg fuel sT sv dT d mm
termination_by structural fuel => fuel

/-- The accumulator step of the raw-optimized member loop. -/
def memberRawFoldStep (cfg : MapperConfig) :
    Nat → Ty → Value → Ty → EngineRes → MemberMapOptimized → EngineRes
  | 0, _, _, _, acc, _ =>
    ((match acc with
      | (d, some e) => (d, some e)
      | (d, none) => (d, some .outOfFuel)) : EngineRes)
  | fuel + 1, sT, sv, dT, acc, mmo =>
    match acc with
    | (d, some e) => (d, some e)
    | (d, none) => mapMemberRaw cfg fuel sT sv dT d mmo
termination_by structural fuel => fuel

/-- engine.go mapMember: ignore/condition gating, destination field lookup,
value selection (resolver, precomputed index path, name fallback), field
converter, then assignment into the destination field. -/
def mapMember (cfg : MapperConfig) : Nat → Ty → Value → Ty → Value → MemberMap → EngineRes
  | 0, _, _, _, destVal, _ => (destVal, some .outOfFuel)
  | fuel + 1, srcStructTy, srcVal, destStructTy, destVal, mm =>
    if mm.ignore then (destVal, none)
    else if (match mm.condition with
             | some c => !c srcVal
             | none => false) then (destVal, none)
    else
      match fieldByIndexWalk destStructTy destVal mm.destFieldIdx with
      | none => (destVal, none)
      | some (destFieldTy, destFieldVal) =>
        let finishWith := fun (vTy : Ty) (vVal : Value) =>
          match mm.converter with
          | some cv =>
            match cv (vTy, vVal) destFieldTy with
            | .error e =>
              (destVal, some (.mapping "converter error" none none mm.destField (some e)))
            | .ok (rTy, rVal) =>
              let r := assignValue cfg fuel rTy rVal destFieldTy destFieldVal
              (setNestedField destVal mm.destFieldIdx r.1, r.2)
          | none =>
            let r := assignValue cfg fuel vTy vVal destFieldTy destFieldVal
            (setNestedField destVal mm.destFieldIdx r.1, r.2)
        match mm.resolver with
        | some r =>
          match r srcVal destVal with
          | .error e =>
            (destVal, some (.mapping "resolver error" none none mm.destField (some e)))
          | .ok rv => finishWith rv.1 rv.2
        | none =>
          if !mm.srcFieldIdx.isEmpty then
            match getNestedField srcStructTy srcVal mm.srcFieldIdx with
            | none => (destVal, none)
            | some (t, v) => finishWith t v
          else if mm.srcField != "" then
            match fieldByNameTV srcStructTy srcVal mm.srcField with
            | none => (destVal, none)
            | some (t, v) => finishWith t v
          else (destVal, none)
termination_by structural fuel => fuel

/-- optimizations.go mapMemberUnsafe: the raw field copy for direct-assign
primitive members (byte copy of identical primitive types = value copy),
falling back to standard mapMember otherwise.  Addressability is not
modelled; where Go falls back for non-addressable values, the member is a
plain single-hop copy for which mapMember computes the same value. -/
def mapMemberRaw (cfg : MapperConfig) : Nat → Ty → Value → Ty → Value → MemberMapOptimized → EngineRes
  | 0, _, _, _, destVal, _ => (destVal, some .outOfFuel)
  | fuel + 1, srcStructTy, srcVal, destStructTy, destVal, mmo =>
    if mmo.base.ignore then (destVal, none)
    else if mmo.directAssign && mmo.isPrimitive && mmo.base.srcFieldIdx.length == 1 then
      let i := mmo.base.srcFieldIdx.headD 0
      let j := mmo.base.destFieldIdx.headD 0
      match getFieldV srcVal i with
      | some sf => (setNestedField destVal [j] sf, none)
      | none => (destVal, none)
    else mapMember cfg fuel srcStructTy srcVal destStructTy destVal mmo.base
termination_by structural fuel => fuel

/-- engine.go mapSlice: the nil-collection policy, then an element-wise loop
allocating a destination slice of equal length; an element failure aborts with
the failing index and leaves the destination untouched. -/
def mapSliceE (cfg : MapperConfig) : Nat → Ty → Value → Ty → Value → EngineRes
  | 0, _, _, _, destVal => (destVal, some .outOfFuel)
  | fuel + 1, srcTy, srcVal, destTy, destVal =>
    match srcVal with
    | .sliceNil =>
      if cfg.allowNilColl then (zeroValue destTy, none)
      else (.sliceV .nil, none)
    | .sliceV elems =>
      let srcElemTy := match srcTy with | .slice e => e | t => t
      let destElemTy := match destTy with | .slice e => e | t => t
      let folded :=
        elems.toList.foldl (sliceFoldStep cfg fuel srcElemTy destElemTy) ([], none)
      match folded with
      | (_, some (i, e)) =>
        (destVal,
         some (.mapping ("error mapping slice element at index " ++ toString i)
            none none "" (some e)))
      | (done, none) => (.sliceV (ValueList.ofList done), none)
    | _ => (destVal, some (.panicked "reflect: IsNil of non-nilable value"))
termination_by structural fuel => fuel

/-- One element of the mapSlice loop: for a pointer destination element type,
allocate (destElem.Set(reflect.New(...))) and map into the pointee; otherwise
map into the zeroed element slot. -/
def sliceElemMap (cfg : MapperConfig) : Nat → Ty → Ty → Value → EngineRes
  | 0, _, _, _ => (.ptrNil, some .outOfFuel)
  | fuel + 1, srcElemTy, destElemTy, srcElem =>
    match destElemTy with
    | .ptr pe =>
      let rr := mapValue cfg fuel srcElemTy srcElem pe (zeroValue pe)
      (Value.ptrV rr.1, rr.2)
    | t => mapValue cfg fuel srcElemTy srcElem t (zeroValue t)
termination_by structural fuel => fuel

/-- The accumulator step of the mapSlice element loop: a prior error freezes
the loop; otherwise map the element, recording the failing index (the number
of elements completed so far) when it errors. -/
def sliceFoldStep (cfg : MapperConfig) :
    Nat → Ty → Ty → (List Value × Option (Nat × MapErr)) → Value →
      (List Value × Option (Nat × MapErr))
  | 0, _, _, acc, _ =>
    (match acc with
     | (done, some e) => (done, some e)
     | (done, none) => (done, some (done.length, .outOfFuel)))
  | fuel + 1, se, de, acc, srcElem =>
    match acc with
    | (done, some e) => (done, some e)
    | (done, none) =>
      let r := sliceElemMap cfg fuel se de srcElem
      match r.2 with
      | some e => (done, some (done.length, e))
      | none => (done ++ [r.1], none)
termination_by structural fuel => fuel

/-- engine.go mapMap: the nil-collection policy, then an entry-wise loop; keys
must be directly assignable or convertible, values go through assignValue.
(Go map iteration order is arbitrary; the model iterates in entry order.) -/
def mapMapE (cfg : MapperConfig) : Nat → Ty → Value → Ty → Value → EngineRes
  | 0, _, _, _, destVal => (destVal, some .outOfFuel)
  | fuel + 1, srcTy, srcVal, destTy, destVal =>
    match srcVal with
    | .mapNil =>
      if cfg.allowNilColl then (zeroValue destTy, none)
      else (.mapV .nil, none)
    | .mapV entries =>
      let srcKeyTy := match srcTy with | .tmap k _ => k | t => t
      let srcValTy := match srcTy with | .tmap _ v => v | t => t
      let destKeyTy := match destTy with | .tmap k _ => k | t => t
      let destValTy := match destTy with | .tmap _ v => v | t => t
      let folded :=
        entries.toList.foldl
          (fun (acc : List (Value × Value) × Option MapErr) entry =>
            match acc with
            | (done, some e) => (done, some e)
            | (done, none) =>
              let (srcKey, srcMapVal) := entry
              let destKeyQ :=
                if assignableTo srcKeyTy destKeyTy then some srcKey
                else if convertibleTo srcKeyTy destKeyTy then
                  some (convertValue srcKey destKeyTy)
                else none
              match destKeyQ with
              | none =>
                (done, some (.mapping "cannot convert map key"
                  (some srcKeyTy) (some destKeyTy) "" none))
              | some destKey =>
                let r := assignValue cfg fuel srcValTy srcMapVal destValTy (zeroValue destValTy)
                match r.2 with
                | some e => (done, some e)
                | none => (done ++ [(destKey, r.1)], none))
          ([], none)
      match folded with
      | (_, some e) => (destVal, some e)
      | (done, none) => (.mapV (EntryList.ofList done), none)
    | _ => (destVal, some (.panicked "reflect: IsNil of non-nilable value"))
termination_by structural fuel => fuel

/-- engine.go assignValue: dereference, pointer-destination allocation and
recursion, converter registry, direct assignment, conversion, nested struct
mapping, slice mapping, else failure. -/
def assignValue (cfg : MapperConfig) : Nat → Ty → Value → Ty → Value → EngineRes
  | 0, _, _, _, destVal => (destVal, some .outOfFuel)
  | fuel + 1, srcTy0, srcVal0, destTy, destVal =>
    match derefTV srcTy0 srcVal0 with
    | none => (destVal, none)
    | some (srcTy, srcVal) =>
      match destTy with
      | .ptr dElem =>
        let dInner :=
          match destVal with
          | .ptrV v => v
          | _ => zeroValue dElem
        let r := assignValue cfg fuel srcTy srcVal dElem dInner
        (.ptrV r.1, r.2)
      | _ =>
        match lookupAssoc cfg.converters srcTy destTy with
        | some converter =>
          match converter (srcTy, srcVal) destTy with
          | .error e => (destVal, some e)
          | .ok (rTy, rVal) =>
            if assignableTo rTy destTy then (rVal, none)
            else (destVal, some (.panicked "reflect: Set using value of wrong type"))
        | none =>
          if assignableTo srcTy destTy then (srcVal, none)
          else if convertibleTo srcTy destTy then (convertValue srcVal destTy, none)
          else
            match srcTy, destTy with
            | .strct _ _, .strct _ _ => mapValue cfg fuel srcTy srcVal destTy destVal
            | .slice _, .slice _ => mapSliceE cfg fuel srcTy srcVal destTy destVal
            | _, _ =>
              (destVal, some (.mapping "cannot assign value" (some srcTy) (some destTy) "" none))
termination_by structural fuel => fuel

end

/-- Map[TDest]: map into a freshly allocated zero destination; the destination
is returned alongside any error. -/
def mapTop (cfg : MapperConfig) (fuel : Nat) (srcTy : Ty) (src : Value) (destTy : Ty) :
    EngineRes :=
  mapValue cfg fuel srcTy src destTy (zeroValue destTy)

/-- MapTo: map into an existing destination value. -/
def mapToTop (cfg : MapperConfig) (fuel : Nat) (srcTy : Ty) (src : Value)
    (destTy : Ty) (dest : Value) : EngineRes :=
  mapValue cfg fuel srcTy src destTy dest

/-- MapSlice: nil handling per the allow-nil-collections option, else an
element-wise Map with element failures wrapped with their index. -/
def mapSliceTop (cfg : MapperConfig) (fuel : Nat) (srcElemTy destElemTy : Ty)
    (src : Option (List Value)) : Except MapErr (Option (List Value)) :=
  match src with
  | none => if cfg.allowNilColl then .ok none else .ok (some [])
  | some elems =>
    let folded :=
      elems.foldl
        (fun (acc : List Value × Option MapErr) s =>
          match acc with
          | (done, some e) => (done, some e)
          | (done, none) =>
            let r := mapTop cfg fuel srcElemTy s destElemTy
            match r.2 with
            | some e =>
              (done, some (.mapping ("error mapping element at index " ++ toString done.length)
                none none "" (some e)))
            | none => (done ++ [r.1], none))
        ([], none)
    match folded with
    | (_, some e) => .error e
    | (done, none) => .ok (some done)

/-! ## General lemmas -/

theorem lookupAssoc_insertAssoc_self {α : Type} (l : List ((Ty × Ty) × α)) (k : Ty × Ty) (v : α) :
    lookupAssoc (insertAssoc l k v) k.1 k.2 = some v := by
  induction l with
  | nil => simp [lookupAssoc, insertAssoc]
  | cons e rest ih =>
    by_cases h : e.1 == k
    · simp [lookupAssoc, insertAssoc, h]
    · simp only [insertAssoc, h, if_false, Bool.false_eq_true]
      simp only [lookupAssoc, List.find?] at ih ⊢
      have he : (e.1 == (k.1, k.2)) = false := by simpa using h
      simp [he, ih]

/-- Unfolding of the field collector at a non-anonymous declared field. -/
theorem collectFieldsT_cons_notAnon (n : String) (t : Ty) (rest : FieldList)
    (pos : Nat) (index : List Nat) (acc : List FieldInfo) :
    collectFieldsT (.cons n false t rest) pos index acc
      = collectFieldsT rest (pos + 1) index
          (if isExportedName n then acc ++ [⟨n, index ++ [pos], t, true⟩] else acc) := by
  rw [collectFieldsT.eq_def]
  rfl

/-- Names collected from a struct with no anonymous fields are exactly its
exported declared names, in order, appended to the accumulator's names. -/
theorem collectFieldsT_noAnon_names :
    ∀ (fl : FieldList), fl.noAnon = true →
    ∀ (pos : Nat) (index : List Nat) (acc : List FieldInfo),
      (collectFieldsT fl pos index acc).map FieldInfo.name
        = acc.map FieldInfo.name ++ fl.names.filter (fun n => isExportedName n)
  | .nil, _, pos, index, acc => by simp [collectFieldsT, FieldList.names]
  | .cons n a t rest, h, pos, index, acc => by
    simp only [FieldList.noAnon, Bool.and_eq_true, Bool.not_eq_true'] at h
    obtain ⟨ha, hrest⟩ := h
    subst ha
    rw [collectFieldsT_cons_notAnon]
    cases hE : isExportedName n with
    | false =>
      simpa [FieldList.names, hE] using
        collectFieldsT_noAnon_names rest hrest (pos + 1) index acc
    | true =>
      have := collectFieldsT_noAnon_names rest hrest (pos + 1) index
        (acc ++ [⟨n, index ++ [pos], t, true⟩])
      simp only [hE, if_true, this, List.map_append, FieldList.names, List.filter]
      simp [hE]

/-! ## C9: uniqueness of names in the flattened field list -/

def innerEmbedded : Ty := .strct "Inner" (.cons "Name" false (.prim .string) .nil)

/-- A record embedding `Inner` anonymously while also declaring its own
`Name` field. -/
def outerEmbedded : Ty :=
  .strct "Outer" (.cons "Inner" true innerEmbedded (.cons "Name" false (.prim .string) .nil))

/-- C9 counterexample: the claim says the flattened field list never contains
two entries with the same name, "including when an embedded record declares a
field with the same name as a field of the outer record".  For `outerEmbedded`
the collector promotes the embedded `Name` and then appends the outer `Name`,
so the flattened list contains the name twice. -/
theorem c9_counterexample :
    ((buildTypeInfo outerEmbedded).fields.map FieldInfo.name) = ["Name", "Name"] ∧
    ¬ ((buildTypeInfo outerEmbedded).fields.map FieldInfo.name).Nodup :=
  ⟨rfl, by decide⟩

/-- C9 (amended): for a struct type with no embedded/anonymous fields and
pairwise-distinct declared field names, the flattened field list produced by
the type-metadata cache has pairwise-distinct names.  (With embedding, an
embedded record sharing a name with an outer field yields a duplicate, per the
counterexample; the name-keyed lookup map still holds one binding per name.) -/
theorem c9_amended (nm : String) (fl : FieldList) (hA : fl.noAnon = true)
    (hN : fl.names.Nodup) :
    ((buildTypeInfo (Ty.strct nm fl)).fields.map FieldInfo.name).Nodup := by
  have h := collectFieldsT_noAnon_names fl hA 0 [] []
  simp only [buildTypeInfo]
  rw [h]
  simpa using hN.filter _

/-- C9 witness: a concrete flat two-field struct satisfies the hypotheses and
its flattened list has distinct names. -/
theorem c9_witness :
    FieldList.noAnon (.cons "A" false (.prim .int) (.cons "B" false (.prim .int) .nil)) = true ∧
    (FieldList.names (.cons "A" false (.prim .int) (.cons "B" false (.prim .int) .nil))).Nodup ∧
    ((buildTypeInfo (Ty.strct "T" (.cons "A" false (.prim .int)
        (.cons "B" false (.prim .int) .nil)))).fields.map FieldInfo.name).Nodup :=
  ⟨by decide, by decide,
   c9_amended "T" (.cons "A" false (.prim .int) (.cons "B" false (.prim .int) .nil))
     (by decide) (by decide)⟩

/-! ## C7: CreateMap on an existing pair -/

def c7S : Ty := .strct "S7" (.cons "A" false (.prim .int) .nil)
def c7D : Ty := .strct "D7" (.cons "A" false (.prim .int) .nil)

/-- Mapper after CreateMap. -/
def c7cfg1 : MapperConfig := (createMapM newMapperConfig c7S c7D).1
/-- ... then a builder refinement: field A ignored. -/
def c7cfg2 : MapperConfig := forMemberByNameM c7cfg1 c7S c7D "A" [ignoreOpt]
/-- ... then CreateMap again for the same pair. -/
def c7cfg3 : MapperConfig := (createMapM c7cfg2 c7S c7D).1

/-- The ignore flag of the registered rule for a destination field. -/
def memberIgnoreFlag (cfg : MapperConfig) (s d : Ty) (n : String) : Option Bool :=
  (lookupAssoc cfg.typeMaps s d).bind
    (fun tm => (tm.memberMaps.find? (fun m => m.destField == n)).map (·.ignore))

/-- C7 counterexample: the claim says a second createMapping call for the same
pair returns the existing TypeMapping, preserving earlier refinements.  In the
code CreateMap unconditionally rebuilds and replaces the registry entry: the
ignore refinement applied after the first CreateMap is present before, and
gone after, the second CreateMap. -/
theorem c7_counterexample :
    memberIgnoreFlag c7cfg2 c7S c7D "A" = some true ∧
    memberIgnoreFlag c7cfg3 c7S c7D "A" = some false :=
  ⟨rfl, rfl⟩

/-- C7 (amended): CreateMap always builds a fresh auto-configured TypeMapping
and replaces any existing registry entry for the pair (so earlier builder
refinements are discarded); it is only the engine-internal auto-creation
(autoCreateTypeMap) that returns an existing TypeMapping unchanged. -/
theorem c7_amended :
    (∀ (cfg : MapperConfig) (sTy dTy : Ty),
      lookupAssoc ((createMapM cfg sTy dTy).1.typeMaps) (unwrapPtrOne sTy) (unwrapPtrOne dTy)
        = some { srcType := unwrapPtrOne sTy, destType := unwrapPtrOne dTy,
                 memberMaps := autoConfigureMembers (unwrapPtrOne sTy) (unwrapPtrOne dTy) }) ∧
    (∀ (cfg : MapperConfig) (sTy dTy : Ty) (tm : TypeMap),
      lookupAssoc cfg.typeMaps sTy dTy = some tm →
      autoCreateTypeMapM cfg sTy dTy = (cfg, tm)) := by
  constructor
  · intro cfg sTy dTy
    have h := lookupAssoc_insertAssoc_self cfg.typeMaps (unwrapPtrOne sTy, unwrapPtrOne dTy)
      ({ srcType := unwrapPtrOne sTy, destType := unwrapPtrOne dTy,
         memberMaps := autoConfigureMembers (unwrapPtrOne sTy) (unwrapPtrOne dTy) } : TypeMap)
    by_cases hOpt : decide (0 < cfg.optLevel.toNat) = true
    · simpa [createMapM, hOpt] using h
    · simpa [createMapM, hOpt] using h
  · intro cfg sTy dTy tm h
    simp [autoCreateTypeMapM, h]

/-- The auto-configured TypeMap for the C7 pair. -/
def c7autoTM : TypeMap :=
  { srcType := c7S, destType := c7D, memberMaps := autoConfigureMembers c7S c7D }

/-- C7 witness: applying the amended theorem at the refined mapper shows the
engine-side auto-creation preserves the refined TypeMapping. -/
theorem c7_witness :
    autoCreateTypeMapM c7cfg2 c7S c7D
      = (c7cfg2, forMemberByNameTM c7autoTM "A" [ignoreOpt]) :=
  c7_amended.2 c7cfg2 c7S c7D _ rfl

/-! ## C10: struct mapping is not atomic on failure -/

def c10S : Ty :=
  .strct "S10" (.cons "A" false (.prim .int)
    (.cons "B" false (.prim .int) (.cons "C" false (.prim .int) .nil)))
def c10D : Ty :=
  .strct "D10" (.cons "A" false (.prim .int)
    (.cons "B" false (.prim .int) (.cons "C" false (.prim .int) .nil)))

/-- Mapper whose middle rule (field B) has a resolver that always fails. -/
def c10cfg : MapperConfig :=
  forMemberByNameM (createMapM newMapperConfig c10S c10D).1 c10S c10D "B"
    [mapFromFuncOpt (fun _ _ => .error (.user "boom"))]

def c10src : Value :=
  .strct (.cons (.prim .int 1) (.cons (.prim .int 2) (.cons (.prim .int 7) .nil)))

/-- C10: member rules are applied in list order without rollback.  The first
rule's value (A := 1) is retained although the second rule's resolver fails
with an error carrying the field name; the third rule is never applied (C
stays at its prior value), and both Map (zero destination) and MapTo
(pre-populated destination) return the partially populated destination
alongside the error. -/
theorem c10_partial_population :
    mapTop c10cfg 10 c10S c10src c10D
      = (.strct (.cons (.prim .int 1) (.cons (.prim .int 0) (.cons (.prim .int 0) .nil))),
         some (.mapping "resolver error" none none "B" (some (.user "boom")))) ∧
    mapToTop c10cfg 10 c10S c10src c10D
        (.strct (.cons (.prim .int 9) (.cons (.prim .int 9) (.cons (.prim .int 9) .nil))))
      = (.strct (.cons (.prim .int 1) (.cons (.prim .int 9) (.cons (.prim .int 9) .nil))),
         some (.mapping "resolver error" none none "B" (some (.user "boom")))) :=
  ⟨rfl, rfl⟩

/-! ## C5: absent-collection policy -/

def c5S : Ty := .strct "S5" (.cons "Xs" false (.slice (.prim .int)) .nil)
def c5D : Ty := .strct "D5" (.cons "Xs" false (.slice (.prim .int)) .nil)

/-- Default-configuration mapper for the identical-slice-field pair. -/
def c5cfg : MapperConfig := (createMapM newMapperConfig c5S c5D).1

/-- C5 counterexample: the claim says that under the default configuration a
nil source slice field yields an empty, non-absent destination slice.  For a
slice field whose type is directly assignable (identical element types) the
engine assigns the nil slice as-is, so the destination field is nil (absent)
with no error — under the default configuration. -/
theorem c5_counterexample :
    c5cfg.allowNilColl = false ∧
    mapTop c5cfg 10 c5S (.strct (.cons .sliceNil .nil)) c5D
      = (.strct (.cons Value.sliceNil .nil), none) :=
  ⟨rfl, rfl⟩

/-- C5 (amended): the absent-collection policy (empty destination by default,
absent destination under allow-empty-collections) holds for MapSlice at the
top level, for nil sequences and nil maps reaching the engine's
mapSlice/mapMap, and for nil slice fields whose types force element-wise
mapping (not directly assignable); a nil slice field of a directly assignable
type is copied as-is, leaving the destination nil under both configurations. -/
theorem c5_amended (cfg : MapperConfig) (f : Nat) (se de : Ty) (dv : Value) :
    (cfg.allowNilColl = false → mapSliceTop cfg f se de none = .ok (some [])) ∧
    (cfg.allowNilColl = true → mapSliceTop cfg f se de none = .ok none) ∧
    (cfg.allowNilColl = false →
      mapSliceE cfg (f + 1) (.slice se) .sliceNil (.slice de) dv = (.sliceV .nil, none)) ∧
    (cfg.allowNilColl = true →
      mapSliceE cfg (f + 1) (.slice se) .sliceNil (.slice de) dv = (.sliceNil, none)) ∧
    (cfg.allowNilColl = false →
      mapMapE cfg (f + 1) (.tmap se de) .mapNil (.tmap se de) dv = (.mapV .nil, none)) ∧
    (cfg.allowNilColl = true →
      mapMapE cfg (f + 1) (.tmap se de) .mapNil (.tmap se de) dv = (.mapNil, none)) ∧
    ((Ty.slice se == Ty.slice de) = false →
      lookupAssoc cfg.converters (.slice se) (.slice de) = none →
      assignValue cfg (f + 2) (.slice se) .sliceNil (.slice de) dv
        = (if cfg.allowNilColl then Value.sliceNil else .sliceV .nil, none)) := by
  refine ⟨fun h => ?_, fun h => ?_, fun h => ?_, fun h => ?_, fun h => ?_, fun h => ?_,
    fun hne hconv => ?_⟩
  · simp [mapSliceTop, h]
  · simp [mapSliceTop, h]
  · simp [mapSliceE, h]
  · simp [mapSliceE, h, zeroValue]
  · simp [mapMapE, h]
  · simp [mapMapE, h, zeroValue]
  · have hassign : assignableTo (.slice se) (.slice de) = false := by
      simpa [assignableTo] using hne
    have hconvert : convertibleTo (.slice se) (.slice de) = false := by
      simp [convertibleTo, hne]
    simp only [assignValue, derefTV, hconv, hassign, hconvert, Bool.false_eq_true, if_false]
    by_cases hn : cfg.allowNilColl
    · simp [mapSliceE, hn, zeroValue]
    · simp [mapSliceE, hn]

/-- C5 witness: the amended policy at a concrete non-assignable pair of slice
types under the default configuration. -/
theorem c5_witness :
    ((Ty.slice (.prim .int) == Ty.slice (.prim .int8)) = false) ∧
    lookupAssoc (newMapperConfig).converters (.slice (.prim .int)) (.slice (.prim .int8)) = none ∧
    assignValue newMapperConfig 5 (.slice (.prim .int)) .sliceNil (.slice (.prim .int8)) .sliceNil
      = (.sliceV .nil, none) :=
  ⟨by decide, rfl, by
    have h := (c5_amended newMapperConfig 3 (.prim .int) (.prim .int8) .sliceNil).2.2.2.2.2.2
      (by decide) rfl
    simpa using h⟩

/-! ## C8: MapFrom bindings and the engine's value-selection order -/

def c8S : Ty :=
  .strct "S8" (.cons "A" false (.prim .int) (.cons "B" false (.prim .int) .nil))
def c8D : Ty := .strct "D8" (.cons "A" false (.prim .int) .nil)

/-- Mapper where destination field A (already auto-matched to source A) is
then explicitly bound to source field B via MapFrom. -/
def c8cfg : MapperConfig :=
  forMemberByNameM (createMapM newMapperConfig c8S c8D).1 c8S c8D "A" [mapFromOpt "B"]

def c8src : Value := .strct (.cons (.prim .int 1) (.cons (.prim .int 2) .nil))

/-- C8 counterexample: the claim says a MapFrom binding makes the engine read
the named source field also for destination fields that were auto-matched
before the binding.  After MapFrom("B") the rule for A carries srcField = "B"
but keeps the pre-computed source path [0] of the auto-match, and the engine
prefers the path: mapping {A:1, B:2} yields A = 1 (from source A), not 2. -/
theorem c8_counterexample :
    (lookupAssoc c8cfg.typeMaps c8S c8D).map
        (fun tm => tm.memberMaps.map (fun m => (m.destField, m.srcField, m.srcFieldIdx)))
      = some [("A", "B", [0])] ∧
    mapTop c8cfg 10 c8S c8src c8D = (.strct (.cons (.prim .int 1) .nil), none) :=
  ⟨rfl, rfl⟩

/-- C8 (amended): the engine's value-selection order per rule is resolver
first, else the rule's pre-computed source field path, else a lookup of the
explicit source field name.  Consequently a MapFrom binding takes effect only
for rules without a pre-computed source path (destination fields that were not
auto-matched); for an auto-matched field the stale pre-computed path wins and
the MapFrom name is ignored. -/
theorem c8_amended (cfg : MapperConfig) (f : Nat) (sT dT : Ty) (sv dv : Value)
    (mm : MemberMap) (k : PrimKind) (b c : Nat)
    (hIgn : mm.ignore = false) (hCond : mm.condition = none)
    (hWalk : fieldByIndexWalk dT dv mm.destFieldIdx = some (.prim k, .prim k c))
    (hConv : mm.converter = none)
    (hGlob : lookupAssoc cfg.converters (.prim k) (.prim k) = none) :
    (∀ r, mm.resolver = some r → r sv dv = .ok (.prim k, .prim k b) →
      mapMember cfg (f + 2) sT sv dT dv mm
        = (setNestedField dv mm.destFieldIdx (.prim k b), none)) ∧
    (mm.resolver = none → mm.srcFieldIdx ≠ [] →
      getNestedField sT sv mm.srcFieldIdx = some (.prim k, .prim k b) →
      mapMember cfg (f + 2) sT sv dT dv mm
        = (setNestedField dv mm.destFieldIdx (.prim k b), none)) ∧
    (mm.resolver = none → mm.srcFieldIdx = [] → mm.srcField ≠ "" →
      fieldByNameTV sT sv mm.srcField = some (.prim k, .prim k b) →
      mapMember cfg (f + 2) sT sv dT dv mm
        = (setNestedField dv mm.destFieldIdx (.prim k b), none)) := by
  have hassign : assignableTo (.prim k) (.prim k) = true := by simp [assignableTo]
  refine ⟨fun r hr hres => ?_, fun hres hidx hget => ?_, fun hres hidx hname hfind => ?_⟩
  · simp [mapMember, hIgn, hCond, hWalk, hr, hres, hConv, assignValue, derefTV, hGlob, hassign]
  · simp [mapMember, hIgn, hCond, hWalk, hres, hidx, hget, hConv, assignValue, derefTV,
      hGlob, hassign]
  · simp [mapMember, hIgn, hCond, hWalk, hres, hidx, hname, hfind, hConv, assignValue,
      derefTV, hGlob, hassign]

/-- C8 witness: the pre-computed-path conjunct applied to the concrete
MapFrom-overridden rule of `c8cfg`: the engine writes the value of source
field A (index path [0]) although srcField says "B". -/
theorem c8_witness :
    mapMember c8cfg 5 c8S c8src c8D (zeroValue c8D)
        ({ destField := "A", destFieldIdx := [0], srcField := "B", srcFieldIdx := [0] } : MemberMap)
      = (setNestedField (zeroValue c8D) [0] (.prim .int 1), none) :=
  (c8_amended c8cfg 3 c8S c8D c8src (zeroValue c8D)
      ({ destField := "A", destFieldIdx := [0], srcField := "B", srcFieldIdx := [0] } : MemberMap)
      .int 1 0 rfl rfl rfl rfl rfl).2.1 rfl (by decide) rfl

/-! ## C2: exact match priority, flattening walk, silent omission -/

/-- Any rule produced by findSourceMember is named after the destination
field it was built for. -/
theorem findSourceMember_name (srcTy : Ty) (fi : FieldInfo) (mm : MemberMap)
    (h : findSourceMember srcTy fi = some mm) : mm.destField = fi.name := by
  cases hl : lookupFieldByName (getTypeInfo srcTy).fields fi.name with
  | some sf =>
    simp only [findSourceMember, hl, Option.some.injEq] at h
    subst h
    rfl
  | none =>
    simp only [findSourceMember, hl] at h
    by_cases hlen : (splitPascalCase fi.name).length > 1
    · rw [if_pos hlen] at h
      simp only [tryFlattenMatch] at h
      cases hw : tryFlattenWalk srcTy (splitPascalCase fi.name) [] with
      | none => simp [hw] at h
      | some idxs =>
        simp only [hw, Option.some.injEq] at h
        subst h
        rfl
    · rw [if_neg hlen] at h
      cases h

/-- C2: during auto-configuration, (1) an identically named source field is
always chosen, winning over any flattening split; (2) with no exact match and
a multi-part split the result is exactly the flattening walk's; (3) when the
name has no exact match and the flattening attempt fails (single-part split,
or a part that does not resolve), no MemberRule for that destination name
appears in the TypeMapping at all — no error is raised. -/
theorem c2_matching (srcTy destTy : Ty) (fi : FieldInfo) (n : String) (hn : fi.name = n) :
    (∀ sf, lookupFieldByName (getTypeInfo srcTy).fields n = some sf →
      findSourceMember srcTy fi
        = some { destField := n, destFieldIdx := fi.index,
                 srcField := sf.name, srcFieldIdx := sf.index }) ∧
    (lookupFieldByName (getTypeInfo srcTy).fields n = none →
      (splitPascalCase n).length > 1 →
      findSourceMember srcTy fi = tryFlattenMatch srcTy (splitPascalCase n) fi) ∧
    (lookupFieldByName (getTypeInfo srcTy).fields n = none →
      ((splitPascalCase n).length ≤ 1 ∨ tryFlattenWalk srcTy (splitPascalCase n) [] = none) →
      ∀ mm ∈ autoConfigureMembers srcTy destTy, mm.destField ≠ n) := by
  subst hn
  refine ⟨fun sf hsf => ?_, fun hnone hlen => ?_, fun hnone hfail mm hmem hne => ?_⟩
  · simp [findSourceMember, hsf]
  · simp [findSourceMember, hnone, hlen]
  · obtain ⟨fj, hfj, hfind⟩ := List.mem_filterMap.mp hmem
    have hname : fj.name = fi.name := by
      rw [← findSourceMember_name srcTy fj mm hfind, hne]
    simp only [findSourceMember, hname, hnone] at hfind
    rcases hfail with hlen | hwalk
    · rw [if_neg (by omega)] at hfind
      cases hfind
    · by_cases hlen : (splitPascalCase fi.name).length > 1
      · rw [if_pos hlen] at hfind
        simp only [tryFlattenMatch, hwalk] at hfind
        cases hfind
      · rw [if_neg hlen] at hfind
        cases hfind

def c2Cust : Ty := .strct "Cust2" (.cons "Name" false (.prim .string) .nil)

/-- A source type offering both an exact `CustomerName` field and a
`Customer.Name` flattening chain for the same destination name. -/
def c2S : Ty :=
  .strct "S2" (.cons "CustomerName" false (.prim .string)
    (.cons "Customer" false c2Cust .nil))

/-- C2 witness: for the concrete source type where both the exact field and
the flattening chain exist, the exact match is chosen. -/
theorem c2_witness :
    findSourceMember c2S (⟨"CustomerName", [7], .prim .string, true⟩ : FieldInfo)
      = some { destField := "CustomerName", destFieldIdx := [7],
               srcField := "CustomerName", srcFieldIdx := [0] } ∧
    tryFlattenWalk c2S ["Customer", "Name"] [] = some [1, 0] :=
  ⟨(c2_matching c2S c2S (⟨"CustomerName", [7], .prim .string, true⟩ : FieldInfo)
      "CustomerName" rfl).1 (⟨"CustomerName", [0], .prim .string, true⟩ : FieldInfo) rfl,
   rfl⟩

/-! ## C3: global converter precedence at every recursion level -/

/-- Pointer-kind test on types. -/
def Ty.isPtrTy : Ty → Bool
  | .ptr _ => true
  | _ => false

/-- assignValue with a registered converter for the (dereferenced source,
non-pointer destination) pair reduces to the converter call followed by the
reflect Set. -/
theorem assignValue_with_converter (cfg : MapperConfig) (f : Nat) (sTy dTy : Ty)
    (sv dv : Value) (conv : TypeConverterM)
    (hder : derefTV sTy sv = some (sTy, sv)) (hnp : Ty.isPtrTy dTy = false)
    (hc : lookupAssoc cfg.converters sTy dTy = some conv) :
    assignValue cfg (f + 1) sTy sv dTy dv
      = (match conv (sTy, sv) dTy with
         | .error e => (dv, some e)
         | .ok (rTy, rv) =>
           if assignableTo rTy dTy then (rv, none)
           else (dv, some (.panicked "reflect: Set using value of wrong type"))) := by
  cases dTy with
  | ptr e => simp [Ty.isPtrTy] at hnp
  | prim k => simp [assignValue, hder, hc]
  | strct nm fl => simp [assignValue, hder, hc]
  | slice e => simp [assignValue, hder, hc]
  | tmap a b => simp [assignValue, hder, hc]

/-- C3: a converter registered for the exact (unwrapped source, unwrapped
destination) type pair is consulted before any structural mapping, at both
recursion entry points (mapValue's post-dereference body, and assignValue used
for struct fields): on success its result is what lands in the destination,
on failure its error is returned, and the entire structural machinery is
bypassed — the result does not depend on the TypeMap registries or the
optimization settings.  In particular a destination field that also has a
structural match receives the converter's result. -/
theorem c3_converter_precedence (cfg : MapperConfig) (f : Nat) (sTy dTy : Ty)
    (sv : Value) (conv : TypeConverterM)
    (hc : lookupAssoc cfg.converters sTy dTy = some conv) :
    (∀ dv rTy rv, conv (sTy, sv) dTy = .ok (rTy, rv) → assignableTo rTy dTy = true →
        mapValueUnwrapped cfg (f + 1) sTy sv dTy dv = (rv, none)) ∧
    (∀ dv e, conv (sTy, sv) dTy = .error e →
        mapValueUnwrapped cfg (f + 1) sTy sv dTy dv = (dv, some e)) ∧
    (∀ dv tms oms lvl raw,
        mapValueUnwrapped
            ({ cfg with typeMaps := tms, optimizedMaps := oms, optLevel := lvl, useRaw := raw })
            (f + 1) sTy sv dTy dv
          = mapValueUnwrapped cfg (f + 1) sTy sv dTy dv) ∧
    (derefTV sTy sv = some (sTy, sv) → Ty.isPtrTy dTy = false →
      (∀ dv rTy rv, conv (sTy, sv) dTy = .ok (rTy, rv) → assignableTo rTy dTy = true →
        assignValue cfg (f + 1) sTy sv dTy dv = (rv, none)) ∧
      (∀ dv e, conv (sTy, sv) dTy = .error e →
        assignValue cfg (f + 1) sTy sv dTy dv = (dv, some e))) ∧
    (∀ (sT dT : Ty) (sv2 dv2 dfv : Value) (mm : MemberMap),
      mm.ignore = false → mm.condition = none → mm.resolver = none → mm.converter = none →
      fieldByIndexWalk dT dv2 mm.destFieldIdx = some (dTy, dfv) →
      mm.srcFieldIdx ≠ [] →
      getNestedField sT sv2 mm.srcFieldIdx = some (sTy, sv) →
      derefTV sTy sv = some (sTy, sv) → Ty.isPtrTy dTy = false →
      ∀ rTy rv, conv (sTy, sv) dTy = .ok (rTy, rv) → assignableTo rTy dTy = true →
        mapMember cfg (f + 2) sT sv2 dT dv2 mm
          = (setNestedField dv2 mm.destFieldIdx rv, none)) := by
  refine ⟨fun dv rTy rv hok hca => ?_, fun dv e herr => ?_, fun dv tms oms lvl raw => ?_,
    fun hder hnp => ⟨fun dv rTy rv hok hca => ?_, fun dv e herr => ?_⟩,
    fun sT dT sv2 dv2 dfv mm hIgn hCond hRes hCv hWalk hIdx hGet hder hnp rTy rv hok hca => ?_⟩
  · simp [mapValueUnwrapped, hc, hok, hca]
  · simp [mapValueUnwrapped, hc, herr]
  · simp [mapValueUnwrapped, hc]
  · rw [assignValue_with_converter cfg f sTy dTy sv dv conv hder hnp hc]
    simp [hok, hca]
  · rw [assignValue_with_converter cfg f sTy dTy sv dv conv hder hnp hc]
    simp [herr]
  · have ha := assignValue_with_converter cfg f sTy dTy sv dfv conv hder hnp hc
    simp [mapMember, hIgn, hCond, hRes, hCv, hWalk, hIdx, hGet, ha, hok, hca]

/-- Concrete instance for the C3 witness: source field type int, destination
field type string, a converter registered for (int, string). -/
def c3conv : TypeConverterM :=
  fun sv _dt =>
    match sv.2 with
    | .prim _ b => .ok (.prim .string, .prim .string (b + 100))
    | _ => .error (.user "bad input")

def c3cfg : MapperConfig := { converters := [((.prim .int, .prim .string), c3conv)] }

/-- C3 witness: with the converter registered, the post-dereference mapValue
body assigns the converter's result directly. -/
theorem c3_witness :
    mapValueUnwrapped c3cfg 4 (.prim .int) (.prim .int 7) (.prim .string) (.prim .string 0)
      = (.prim .string 107, none) :=
  (c3_converter_precedence c3cfg 3 (.prim .int) (.prim .string) (.prim .int 7) c3conv rfl).1
    (.prim .string 0) (.prim .string) (.prim .string 107) rfl (by decide)

/-! ## C6: error context and cause preservation -/

theorem ValueList.toList_ofList : ∀ l : List Value, (ValueList.ofList l).toList = l
  | [] => rfl
  | v :: rest => by
    simp [ValueList.ofList, ValueList.toList, ValueList.toList_ofList rest]

/-- A prior error freezes the slice element loop. -/
theorem sliceFold_frozen (cfg : MapperConfig) (f : Nat) (se de : Ty) :
    ∀ (l : List Value) (d : List Value) (x : Nat × MapErr),
      l.foldl (sliceFoldStep cfg f se de) (d, some x) = (d, some x) := by
  intro l
  induction l with
  | nil => intro d x; rfl
  | cons p rest ih =>
    intro d x
    have hstep : sliceFoldStep cfg f se de (d, some x) p = (d, some x) := by
      cases f <;> simp [sliceFoldStep]
    rw [List.foldl_cons, hstep, ih]

/-- If every element of a prefix maps cleanly and the next element fails, the
slice element loop stops at that element, recording its index (the number of
elements completed before it). -/
theorem sliceFold_append_err (cfg : MapperConfig) (f : Nat) (se de : Ty)
    (bad : Value) (rest : List Value) (e : MapErr)
    (hbad : (sliceElemMap cfg f se de bad).2 = some e) :
    ∀ (pre : List Value) (done : List Value),
      (∀ x ∈ pre, (sliceElemMap cfg f se de x).2 = none) →
      ∃ done', (pre ++ bad :: rest).foldl (sliceFoldStep cfg (f + 1) se de) (done, none)
        = (done', some (done.length + pre.length, e)) := by
  intro pre
  induction pre with
  | nil =>
    intro done _
    refine ⟨done, ?_⟩
    have hstep : sliceFoldStep cfg (f + 1) se de (done, none) bad
        = (done, some (done.length, e)) := by
      simp [sliceFoldStep, hbad]
    rw [List.nil_append, List.foldl_cons, hstep, sliceFold_frozen]
    simp
  | cons p pre' ih =>
    intro done hpre
    have hp : (sliceElemMap cfg f se de p).2 = none := hpre p (by simp)
    obtain ⟨done', hd⟩ := ih (done ++ [(sliceElemMap cfg f se de p).1])
      (fun x hx => hpre x (by simp [hx]))
    refine ⟨done', ?_⟩
    have hstep : sliceFoldStep cfg (f + 1) se de (done, none) p
        = (done ++ [(sliceElemMap cfg f se de p).1], none) := by
      simp [sliceFoldStep, hp]
    rw [List.cons_append, List.foldl_cons, hstep, hd]
    simp
    omega

/-- C6: mapping failures carry context and preserve the cause: a resolver
failure and a field-converter failure are wrapped in a MappingError carrying
the destination field name and the user callback's error as inner cause; a
sequence element failure is wrapped with the failing element's index in the
message and the inner error as cause; in every case the cause is recoverable
through Unwrap (`MapErr.unwrapInner`). -/
theorem c6_error_context :
    (∀ (cfg : MapperConfig) (f : Nat) (sT dT dfTy : Ty) (sv dv dfv : Value)
        (mm : MemberMap) (r : ValueResolverM) (e : MapErr),
      mm.ignore = false → mm.condition = none →
      fieldByIndexWalk dT dv mm.destFieldIdx = some (dfTy, dfv) →
      mm.resolver = some r → r sv dv = .error e →
      mapMember cfg (f + 1) sT sv dT dv mm
        = (dv, some (.mapping "resolver error" none none mm.destField (some e)))) ∧
    (∀ (cfg : MapperConfig) (f : Nat) (sT dT dfTy t : Ty) (sv dv dfv v : Value)
        (mm : MemberMap) (cv : TypeConverterM) (e : MapErr),
      mm.ignore = false → mm.condition = none →
      fieldByIndexWalk dT dv mm.destFieldIdx = some (dfTy, dfv) →
      mm.resolver = none → mm.srcFieldIdx ≠ [] →
      getNestedField sT sv mm.srcFieldIdx = some (t, v) →
      mm.converter = some cv → cv (t, v) dfTy = .error e →
      mapMember cfg (f + 1) sT sv dT dv mm
        = (dv, some (.mapping "converter error" none none mm.destField (some e)))) ∧
    (∀ (cfg : MapperConfig) (f : Nat) (se de : Ty) (dv bad : Value)
        (pre rest : List Value) (e : MapErr),
      (∀ x ∈ pre, (sliceElemMap cfg f se de x).2 = none) →
      (sliceElemMap cfg f se de bad).2 = some e →
      mapSliceE cfg (f + 2) (.slice se) (.sliceV (ValueList.ofList (pre ++ bad :: rest)))
          (.slice de) dv
        = (dv, some (.mapping ("error mapping slice element at index " ++ toString pre.length)
            none none "" (some e)))) ∧
    (∀ (msg : String) (s d : Option Ty) (fn : String) (e : MapErr),
      MapErr.unwrapInner (.mapping msg s d fn (some e)) = some e) := by
  refine ⟨fun cfg f sT dT dfTy sv dv dfv mm r e hIgn hCond hWalk hres herr => ?_,
    fun cfg f sT dT dfTy t sv dv dfv v mm cv e hIgn hCond hWalk hres hidx hget hcv herr => ?_,
    fun cfg f se de dv bad pre rest e hpre hbad => ?_,
    fun msg s d fn e => rfl⟩
  · simp [mapMember, hIgn, hCond, hWalk, hres, herr]
  · simp [mapMember, hIgn, hCond, hWalk, hres, hidx, hget, hcv, herr]
  · obtain ⟨done', hfold⟩ := sliceFold_append_err cfg f se de bad rest e hbad pre [] hpre
    simp only [mapSliceE, ValueList.toList_ofList]
    rw [hfold]
    simp

/-- Converter used by the C6 witness: fails exactly on payload 13. -/
def c6conv : TypeConverterM :=
  fun sv _dt =>
    match sv.2 with
    | .prim .int 13 => .error (.user "bad13")
    | v => .ok (.prim .int, v)

def c6cfg : MapperConfig := { converters := [((.prim .int, .prim .int), c6conv)] }

/-- C6 witness: the element at position 1 fails, and the slice error carries
index 1 in its message and wraps the element's cause, recoverable through
unwrapInner. -/
theorem c6_witness :
    mapSliceE c6cfg 5 (.slice (.prim .int))
        (.sliceV (ValueList.ofList [.prim .int 1, .prim .int 13, .prim .int 7]))
        (.slice (.prim .int)) .sliceNil
      = (.sliceNil, some (.mapping ("error mapping slice element at index " ++ toString 1)
          none none "" (some (.user "bad13")))) :=
  c6_error_context.2.2.1 c6cfg 3 (.prim .int) (.prim .int) .sliceNil (.prim .int 13)
    [.prim .int 1] [.prim .int 7] (.user "bad13")
    (by intro x hx; simp at hx; subst hx; rfl) rfl

/-! ## C4: hook ordering and the invocation-time hook re-check -/

/-- The hook-aware execution path of mapStructOptimized: before-hooks against
the untouched destination, then the custom transform (exclusively) or the
member loop (raw-optimized or standard), then after-hooks against the fully
populated destination — with no reference to the compiled specialized copy. -/
def hookAwareMemberPath (cfg : MapperConfig) (fuel : Nat) (om : TypeMapOptimized)
    (sv dv : Value) : EngineRes :=
  let tm := om.base
  match runHooks tm.beforeMap sv dv with
  | (d, some e) => (d, some e)
  | (d1, none) =>
    match tm.customMapper with
    | some cm => cm sv d1
    | none =>
      let looped :=
        if cfg.useRaw then
          om.optimizedMembers.foldl
            (memberRawFoldStep cfg fuel tm.srcType sv tm.destType) (d1, none)
        else
          tm.memberMaps.foldl
            (memberFoldStep cfg fuel tm.srcType sv tm.destType) (d1, none)
      match looped with
      | (d2, some e) => (d2, some e)
      | (d2, none) => runHooks tm.afterMap sv d2

/-- When the TypeMap carries hooks or a custom transform, the optimized struct
mapper takes the hook-aware path. -/
theorem mapStructOptimized_hooks (cfg : MapperConfig) (fuel : Nat)
    (om : TypeMapOptimized) (sv dv : Value)
    (hH : (!om.base.beforeMap.isEmpty || !om.base.afterMap.isEmpty
        || om.base.customMapper.isSome) = true) :
    mapStructOptimized cfg (fuel + 1) sv dv om = hookAwareMemberPath cfg fuel om sv dv := by
  rcases hB : runHooks om.base.beforeMap sv dv with ⟨d1, e1⟩
  cases e1 with
  | some e => simp [mapStructOptimized, hookAwareMemberPath, hB]
  | none =>
    cases hcm : om.base.customMapper with
    | some cm => simp [mapStructOptimized, hookAwareMemberPath, hB, hcm]
    | none =>
      rw [hcm] at hH
      simp only [Option.isSome_none, Bool.or_false] at hH
      cases hsp : om.specializedFn with
      | none =>
        simp only [mapStructOptimized, hookAwareMemberPath, hB, hcm, hsp]
        rfl
      | some spf =>
        simp only [mapStructOptimized, hookAwareMemberPath, hB, hcm, hsp, hH,
          Bool.not_true, Bool.false_eq_true, if_false]
        rfl

/-- C4: for a TypeMapping carrying hooks (or a custom transform), the engine's
optimized struct path re-checks on each invocation and (1) never consults the
compiled specialized copy — the result is identical for any value of
`specializedFn` — and (2) equals the hook-aware path: every before-hook runs
against the destination before any field is populated, the member rules (or
the custom transform, exclusively) populate the fields, and every after-hook
runs against — and may still mutate — the fully populated destination, its
mutation being the final result. -/
theorem c4_hook_ordering (cfg : MapperConfig) (fuel : Nat) (om : TypeMapOptimized)
    (sv dv : Value)
    (hH : (!om.base.beforeMap.isEmpty || !om.base.afterMap.isEmpty
        || om.base.customMapper.isSome) = true) :
    (∀ f1 f2,
      mapStructOptimized cfg (fuel + 1) sv dv { om with specializedFn := f1 }
        = mapStructOptimized cfg (fuel + 1) sv dv { om with specializedFn := f2 }) ∧
    mapStructOptimized cfg (fuel + 1) sv dv om = hookAwareMemberPath cfg fuel om sv dv := by
  refine ⟨fun f1 f2 => ?_, mapStructOptimized_hooks cfg fuel om sv dv hH⟩
  rw [mapStructOptimized_hooks cfg fuel ({ om with specializedFn := f1 }) sv dv hH,
      mapStructOptimized_hooks cfg fuel ({ om with specializedFn := f2 }) sv dv hH]
  rfl

/-- TypeMapOptimized used by the C4 witness: compiled at tier Specialized
(the specialized copy exists), with an after-hook appended afterwards that
overwrites field A with 42. -/
def c4tm : TypeMap :=
  { srcType := .strct "S4" (.cons "A" false (.prim .int) .nil),
    destType := .strct "D4" (.cons "A" false (.prim .int) .nil),
    memberMaps := autoConfigureMembers (.strct "S4" (.cons "A" false (.prim .int) .nil))
      (.strct "D4" (.cons "A" false (.prim .int) .nil)) }

def c4om : TypeMapOptimized :=
  let compiled := compileOptimizedTypeMap c4tm .optSpecialized
  { compiled with base :=
      { compiled.base with afterMap := [fun _ d => (setNestedField d [0] (.prim .int 42), none)] } }

/-- C4 witness: with the after-hook present, the optimized path equals the
hook-aware path (the specialized copy is skipped), and the after-hook's
mutation is the final result. -/
theorem c4_witness :
    mapStructOptimized ({ useRaw := true, optLevel := .optSpecialized } : MapperConfig) 5
        (.strct (.cons (.prim .int 7) .nil)) (.strct (.cons (.prim .int 0) .nil)) c4om
      = hookAwareMemberPath ({ useRaw := true, optLevel := .optSpecialized } : MapperConfig) 4
          c4om (.strct (.cons (.prim .int 7) .nil)) (.strct (.cons (.prim .int 0) .nil)) ∧
    hookAwareMemberPath ({ useRaw := true, optLevel := .optSpecialized } : MapperConfig) 4
        c4om (.strct (.cons (.prim .int 7) .nil)) (.strct (.cons (.prim .int 0) .nil))
      = (.strct (.cons (.prim .int 42) .nil), none) :=
  ⟨(c4_hook_ordering ({ useRaw := true, optLevel := .optSpecialized } : MapperConfig) 4 c4om
      (.strct (.cons (.prim .int 7) .nil)) (.strct (.cons (.prim .int 0) .nil)) rfl).2,
   rfl⟩


/-! ## C1: optimization-tier equivalence for all-primitive pairs -/

/-- Auto-created member rule with no custom logic, single-hop on both sides,
identical primitive declared types. -/
def CleanPrimMember (srcTy destTy : Ty) (mm : MemberMap) : Prop :=
  mm.ignore = false ∧ mm.condition = none ∧ mm.resolver = none ∧ mm.converter = none ∧
  ∃ i j k, mm.srcFieldIdx = [i] ∧ mm.destFieldIdx = [j] ∧
    (∃ n a, tyField srcTy i = some (n, a, .prim k)) ∧
    (∃ n a, tyField destTy j = some (n, a, .prim k))

/-- Every declared primitive field of the type is present in the value with
the declared kind. -/
def PrimFieldsTyped (t : Ty) (v : Value) : Prop :=
  ∀ i n a k, tyField t i = some (n, a, .prim k) → ∃ b, getFieldV v i = some (.prim k b)

theorem setFieldsAt_get_self :
    ∀ (fs : ValueList) (j : Nat) (nv fv : Value),
      fs.get? j = some fv → (setFieldsAt fs j [] nv).get? j = some nv
  | .nil, j, nv, fv => by intro h; simp [ValueList.get?] at h
  | .cons v rest, 0, nv, fv => by intro _; simp [setFieldsAt, ValueList.get?, setNestedField]
  | .cons v rest, j + 1, nv, fv => by
    intro h
    simp only [ValueList.get?] at h
    simpa [setFieldsAt, ValueList.get?] using setFieldsAt_get_self rest j nv fv h

theorem setFieldsAt_get_other :
    ∀ (fs : ValueList) (i j : Nat) (ridx : List Nat) (nv : Value), i ≠ j →
      (setFieldsAt fs j ridx nv).get? i = fs.get? i
  | .nil, _, _, _, _ => by intro _; simp [setFieldsAt]
  | .cons v rest, i, 0, ridx, nv => by
    intro hne
    cases i with
    | zero => exact absurd rfl hne
    | succ i' => simp [setFieldsAt, ValueList.get?]
  | .cons v rest, i, j + 1, ridx, nv => by
    intro hne
    cases i with
    | zero => simp [setFieldsAt, ValueList.get?]
    | succ i' =>
      simpa [setFieldsAt, ValueList.get?] using
        setFieldsAt_get_other rest i' j ridx nv (by omega)

theorem zeroFields_get :
    ∀ (fl : FieldList) (j : Nat) (n : String) (a : Bool) (t : Ty),
      fieldDeclAt fl j = some (n, a, t) → (zeroFields fl).get? j = some (zeroValue t)
  | .nil, j, n, a, t => by intro h; simp [fieldDeclAt] at h
  | .cons n' a' t' rest, 0, n, a, t => by
    intro h
    simp only [fieldDeclAt, Option.some.injEq, Prod.mk.injEq] at h
    obtain ⟨-, -, ht⟩ := h
    simp [zeroFields, ValueList.get?, ht]
  | .cons n' a' t' rest, j + 1, n, a, t => by
    intro h
    simp only [fieldDeclAt] at h
    simpa [zeroFields, ValueList.get?] using zeroFields_get rest j n a t h

/-- Writing a declared-kind primitive into a field preserves the typedness of
the struct value. -/
theorem PrimFieldsTyped_set (dnm : String) (dfl : FieldList) (dfs : ValueList)
    (j : Nat) (k : PrimKind) (b : Nat) (n : String) (a : Bool)
    (h : PrimFieldsTyped (.strct dnm dfl) (.strct dfs))
    (hj : fieldDeclAt dfl j = some (n, a, .prim k)) :
    PrimFieldsTyped (.strct dnm dfl) (.strct (setFieldsAt dfs j [] (.prim k b))) := by
  intro i n' a' k' hi
  by_cases hij : i = j
  · subst hij
    simp only [tyField] at hi
    have heq := hi.symm.trans hj
    simp only [Option.some.injEq, Prod.mk.injEq, Ty.prim.injEq] at heq
    obtain ⟨-, -, hk⟩ := heq
    obtain ⟨b0, hb0⟩ := h i n' a' k' (by simpa [tyField] using hi)
    rw [hk] at hb0 ⊢
    simp only [getFieldV] at hb0 ⊢
    exact ⟨b, setFieldsAt_get_self dfs i (.prim k b) _ hb0⟩
  · obtain ⟨b0, hb0⟩ := h i n' a' k' hi
    simp only [getFieldV] at hb0 ⊢
    exact ⟨b0, by rw [setFieldsAt_get_other dfs i j [] _ hij]; exact hb0⟩

/-- The zero value of a struct type is prim-fields-typed. -/
theorem PrimFieldsTyped_zero (nm : String) (fl : FieldList) :
    PrimFieldsTyped (.strct nm fl) (zeroValue (.strct nm fl)) := by
  intro i n a k hi
  simp only [tyField] at hi
  exact ⟨0, by simp [zeroValue, getFieldV, zeroFields_get fl i n a _ hi]⟩

/-- On a clean identical-primitive member, the standard mapMember is exactly a
field copy. -/
theorem mapMember_cleanPrim (cfg : MapperConfig) (f : Nat)
    (snm dnm : String) (sfl dfl : FieldList) (sfs dfs : ValueList)
    (mm : MemberMap) (i j : Nat) (k : PrimKind) (bs bd : Nat)
    (n1 n2 : String) (a1 a2 : Bool)
    (hconv : cfg.converters = [])
    (hIgn : mm.ignore = false) (hCond : mm.condition = none)
    (hRes : mm.resolver = none) (hCv : mm.converter = none)
    (hi : mm.srcFieldIdx = [i]) (hj : mm.destFieldIdx = [j])
    (hsT : fieldDeclAt sfl i = some (n1, a1, .prim k))
    (hdT : fieldDeclAt dfl j = some (n2, a2, .prim k))
    (hsv : sfs.get? i = some (.prim k bs)) (hdv : dfs.get? j = some (.prim k bd)) :
    mapMember cfg (f + 2) (.strct snm sfl) (.strct sfs) (.strct dnm dfl) (.strct dfs) mm
      = (.strct (setFieldsAt dfs j [] (.prim k bs)), none) := by
  simp [mapMember, hIgn, hCond, hRes, hCv, hi, hj, fieldByIndexWalk, stepFieldTV,
    structFieldTV, hdT, hdv, getNestedField, derefTV, hsT, hsv, assignValue,
    lookupAssoc, hconv, assignableTo, setNestedField]

/-- On a clean identical-primitive member the raw-optimized path performs the
same field copy. -/
theorem mapMemberRaw_cleanPrim (cfg : MapperConfig) (f : Nat)
    (sT dT : Ty) (sfs dfs : ValueList)
    (mmo : MemberMapOptimized) (i j : Nat) (k : PrimKind) (bs : Nat)
    (hIgn : mmo.base.ignore = false)
    (hDA : mmo.directAssign = true) (hP : mmo.isPrimitive = true)
    (hi : mmo.base.srcFieldIdx = [i]) (hj : mmo.base.destFieldIdx = [j])
    (hsv : sfs.get? i = some (.prim k bs)) :
    mapMemberRaw cfg (f + 1) sT (.strct sfs) dT (.strct dfs) mmo
      = (.strct (setFieldsAt dfs j [] (.prim k bs)), none) := by
  simp [mapMemberRaw, hIgn, hDA, hP, hi, hj, getFieldV, hsv, setNestedField]

/-- On a clean identical-primitive member the compiled specialized copy step
performs the same field copy. -/
theorem specFoldStep_cleanPrim (sfs dfs : ValueList)
    (mmo : MemberMapOptimized) (i j : Nat) (k : PrimKind) (bs bd : Nat)
    (hIgn : mmo.base.ignore = false)
    (hi : mmo.base.srcFieldIdx = [i]) (hj : mmo.base.destFieldIdx = [j])
    (hsv : sfs.get? i = some (.prim k bs)) (hdv : dfs.get? j = some (.prim k bd)) :
    specFoldStep (.strct sfs) (.strct dfs, none) mmo
      = (.strct (setFieldsAt dfs j [] (.prim k bs)), none) := by
  simp [specFoldStep, hIgn, hi, hj, getFieldV, hsv, hdv, setNestedField]

/-- The optimizer's member analysis of a clean identical-primitive rule:
single-hop, primitive, direct-assign; the all-primitive and custom-logic
accumulators are unchanged. -/
theorem compileMemberStep_clean (srcTy destTy : Ty)
    (ms0 : List MemberMapOptimized) (allP hCL : Bool) (mm : MemberMap)
    (h : CleanPrimMember srcTy destTy mm) :
    ∃ mmo, compileMemberStep srcTy destTy (ms0, allP, hCL) mm
        = (ms0 ++ [mmo], allP, hCL)
      ∧ mmo.base = mm ∧ mmo.directAssign = true ∧ mmo.isPrimitive = true := by
  obtain ⟨hIgn, hCond, hRes, hCv, i, j, k, hi, hj, ⟨n1, a1, hsT⟩, ⟨n2, a2, hdT⟩⟩ := h
  refine ⟨{ base := mm, srcKind := some (.prim k), destKind := some (.prim k),
            isPrimitive := true, directAssign := true }, ?_, rfl, rfl, rfl⟩
  simp [compileMemberStep, hi, hj, hsT, hdT, kindOfTy, isPrimitiveKind, hRes, hCv, hCond]

/-- Folding the optimizer's analysis over clean identical-primitive rules. -/
theorem compileFold_clean (srcTy destTy : Ty) :
    ∀ (mms : List MemberMap) (ms0 : List MemberMapOptimized) (allP hCL : Bool),
      (∀ mm ∈ mms, CleanPrimMember srcTy destTy mm) →
      ∃ oms, mms.foldl (compileMemberStep srcTy destTy) (ms0, allP, hCL)
          = (ms0 ++ oms, allP, hCL)
        ∧ oms.map (·.base) = mms
        ∧ ∀ mmo ∈ oms, mmo.directAssign = true ∧ mmo.isPrimitive = true
            ∧ CleanPrimMember srcTy destTy mmo.base := by
  intro mms
  induction mms with
  | nil => intro ms0 allP hCL _; exact ⟨[], by simp⟩
  | cons mm rest ih =>
    intro ms0 allP hCL hall
    obtain ⟨mmo, hstep, hbase, hda, hip⟩ :=
      compileMemberStep_clean srcTy destTy ms0 allP hCL mm (hall mm (by simp))
    obtain ⟨oms, hfold, hbases, hprops⟩ :=
      ih (ms0 ++ [mmo]) allP hCL (fun m hm => hall m (by simp [hm]))
    refine ⟨mmo :: oms, ?_, by simp [hbases, hbase], ?_⟩
    · rw [List.foldl_cons, hstep, hfold]
      simp
    · intro m hm
      rcases List.mem_cons.mp hm with hm | hm
      · subst hm
        exact ⟨hda, hip, hbase ▸ hall mm (by simp)⟩
      · obtain ⟨h1, h2, h3⟩ := hprops m hm
        exact ⟨h1, h2, h3⟩

/-- Compilation of a TypeMap whose rules are all clean identical-primitive:
all-primitive, no custom logic, and at tier Specialized the pre-built copy. -/
theorem compileOptimizedTypeMap_clean (tm : TypeMap) (lvl : OptLevel)
    (hmm : ∀ mm ∈ tm.memberMaps, CleanPrimMember tm.srcType tm.destType mm)
    (hb : tm.beforeMap = []) (ha : tm.afterMap = []) (hc : tm.customMapper = none) :
    ∃ oms,
      compileOptimizedTypeMap tm lvl
        = { base := tm, optimizedMembers := oms,
            specializedFn :=
              if decide (OptLevel.optSpecialized.toNat ≤ lvl.toNat)
              then some (specializedMapperFn oms) else none,
            allPrimitive := true, hasCustomLogic := false, compiled := true }
      ∧ oms.map (·.base) = tm.memberMaps
      ∧ ∀ mmo ∈ oms, mmo.directAssign = true ∧ mmo.isPrimitive = true
          ∧ CleanPrimMember tm.srcType tm.destType mmo.base := by
  obtain ⟨oms, hfold, hbases, hprops⟩ :=
    compileFold_clean tm.srcType tm.destType tm.memberMaps [] true false hmm
  refine ⟨oms, ?_, hbases, hprops⟩
  simp [compileOptimizedTypeMap, hb, ha, hc, hfold]

/-- The common effect of all three member execution paths on clean
identical-primitive rules: copy each rule's single source field into its
destination field, in rule order. -/
def cleanCopyFold (sfs : ValueList) : List MemberMap → ValueList → ValueList
  | [], dfs => dfs
  | mm :: rest, dfs =>
    let dfs' :=
      match sfs.get? (mm.srcFieldIdx.headD 0) with
      | some sv => setFieldsAt dfs (mm.destFieldIdx.headD 0) [] sv
      | none => dfs
    cleanCopyFold sfs rest dfs'

/-- The standard member loop on clean identical-primitive rules is the plain
field-copy fold. -/
theorem memberLoop_cleanPrim (cfg : MapperConfig) (f : Nat)
    (snm dnm : String) (sfl dfl : FieldList) (sfs : ValueList)
    (hconv : cfg.converters = [])
    (hs : PrimFieldsTyped (.strct snm sfl) (.strct sfs)) :
    ∀ (mms : List MemberMap) (dfs : ValueList),
      (∀ mm ∈ mms, CleanPrimMember (.strct snm sfl) (.strct dnm dfl) mm) →
      PrimFieldsTyped (.strct dnm dfl) (.strct dfs) →
      mms.foldl (memberFoldStep cfg (f + 3) (.strct snm sfl) (.strct sfs) (.strct dnm dfl))
          ((.strct dfs, none) : EngineRes)
        = (.strct (cleanCopyFold sfs mms dfs), none) := by
  intro mms
  induction mms with
  | nil => intro dfs _ _; simp [cleanCopyFold]
  | cons mm rest ih =>
    intro dfs hall hd
    obtain ⟨hIgn, hCond, hRes, hCv, i, j, k, hi, hj, ⟨n1, a1, hsT⟩, ⟨n2, a2, hdT⟩⟩ :=
      hall mm (by simp)
    simp only [tyField] at hsT hdT
    obtain ⟨bs, hbs⟩ := hs i n1 a1 k (by simpa [tyField] using hsT)
    obtain ⟨bd, hbd⟩ := hd j n2 a2 k (by simpa [tyField] using hdT)
    simp only [getFieldV] at hbs hbd
    have hstep : memberFoldStep cfg (f + 3) (.strct snm sfl) (.strct sfs) (.strct dnm dfl)
        ((.strct dfs, none) : EngineRes) mm
        = (.strct (setFieldsAt dfs j [] (.prim k bs)), none) := by
      simp only [memberFoldStep]
      exact mapMember_cleanPrim cfg f snm dnm sfl dfl sfs dfs mm i j k bs bd n1 n2 a1 a2
        hconv hIgn hCond hRes hCv hi hj hsT hdT hbs hbd
    rw [List.foldl_cons, hstep,
      ih (setFieldsAt dfs j [] (.prim k bs)) (fun m hm => hall m (by simp [hm]))
        (PrimFieldsTyped_set dnm dfl dfs j k bs n2 a2 hd hdT)]
    have hcc : cleanCopyFold sfs (mm :: rest) dfs
        = cleanCopyFold sfs rest (setFieldsAt dfs j [] (.prim k bs)) := by
      simp [cleanCopyFold, hi, hj, hbs]
    rw [hcc]

/-- The raw-optimized member loop on clean identical-primitive rules is the
same plain field-copy fold. -/
theorem rawLoop_cleanPrim (cfg : MapperConfig) (f : Nat)
    (snm dnm : String) (sfl dfl : FieldList) (sfs : ValueList)
    (hs : PrimFieldsTyped (.strct snm sfl) (.strct sfs)) :
    ∀ (oms : List MemberMapOptimized) (dfs : ValueList),
      (∀ mmo ∈ oms, mmo.directAssign = true ∧ mmo.isPrimitive = true
          ∧ CleanPrimMember (.strct snm sfl) (.strct dnm dfl) mmo.base) →
      oms.foldl (memberRawFoldStep cfg (f + 2) (.strct snm sfl) (.strct sfs) (.strct dnm dfl))
          ((.strct dfs, none) : EngineRes)
        = (.strct (cleanCopyFold sfs (oms.map (·.base)) dfs), none) := by
  intro oms
  induction oms with
  | nil => intro dfs _; simp [cleanCopyFold]
  | cons mmo rest ih =>
    intro dfs hall
    obtain ⟨hDA, hP, hIgn, hCond, hRes, hCv, i, j, k, hi, hj, ⟨n1, a1, hsT⟩, ⟨n2, a2, hdT⟩⟩ :=
      hall mmo (by simp)
    simp only [tyField] at hsT
    obtain ⟨bs, hbs⟩ := hs i n1 a1 k (by simpa [tyField] using hsT)
    simp only [getFieldV] at hbs
    have hstep : memberRawFoldStep cfg (f + 2) (.strct snm sfl) (.strct sfs) (.strct dnm dfl)
        ((.strct dfs, none) : EngineRes) mmo
        = (.strct (setFieldsAt dfs j [] (.prim k bs)), none) := by
      simp only [memberRawFoldStep]
      exact mapMemberRaw_cleanPrim cfg f (.strct snm sfl) (.strct dnm dfl) sfs dfs mmo
        i j k bs hIgn hDA hP hi hj hbs
    rw [List.foldl_cons, hstep,
      ih (setFieldsAt dfs j [] (.prim k bs)) (fun m hm => hall m (by simp [hm]))]
    have hcc : cleanCopyFold sfs (mmo.base :: rest.map (·.base)) dfs
        = cleanCopyFold sfs (rest.map (·.base)) (setFieldsAt dfs j [] (.prim k bs)) := by
      simp [cleanCopyFold, hi, hj, hbs]
    simp only [List.map_cons]
    rw [hcc]

/-- The compiled specialized copy on clean identical-primitive rules is the
same plain field-copy fold. -/
theorem specLoop_cleanPrim (snm dnm : String) (sfl dfl : FieldList) (sfs : ValueList)
    (hs : PrimFieldsTyped (.strct snm sfl) (.strct sfs)) :
    ∀ (oms : List MemberMapOptimized) (dfs : ValueList),
      (∀ mmo ∈ oms, mmo.directAssign = true ∧ mmo.isPrimitive = true
          ∧ CleanPrimMember (.strct snm sfl) (.strct dnm dfl) mmo.base) →
      PrimFieldsTyped (.strct dnm dfl) (.strct dfs) →
      oms.foldl (specFoldStep (.strct sfs)) ((.strct dfs, none) : EngineRes)
        = (.strct (cleanCopyFold sfs (oms.map (·.base)) dfs), none) := by
  intro oms
  induction oms with
  | nil => intro dfs _ _; simp [cleanCopyFold]
  | cons mmo rest ih =>
    intro dfs hall hd
    obtain ⟨hDA, hP, hIgn, hCond, hRes, hCv, i, j, k, hi, hj, ⟨n1, a1, hsT⟩, ⟨n2, a2, hdT⟩⟩ :=
      hall mmo (by simp)
    simp only [tyField] at hsT hdT
    obtain ⟨bs, hbs⟩ := hs i n1 a1 k (by simpa [tyField] using hsT)
    obtain ⟨bd, hbd⟩ := hd j n2 a2 k (by simpa [tyField] using hdT)
    simp only [getFieldV] at hbs hbd
    have hstep : specFoldStep (.strct sfs) ((.strct dfs, none) : EngineRes) mmo
        = (.strct (setFieldsAt dfs j [] (.prim k bs)), none) :=
      specFoldStep_cleanPrim sfs dfs mmo i j k bs bd hIgn hi hj hbs hbd
    rw [List.foldl_cons, hstep,
      ih (setFieldsAt dfs j [] (.prim k bs)) (fun m hm => hall m (by simp [hm]))
        (PrimFieldsTyped_set dnm dfl dfs j k bs n2 a2 hd hdT)]
    have hcc : cleanCopyFold sfs (mmo.base :: rest.map (·.base)) dfs
        = cleanCopyFold sfs (rest.map (·.base)) (setFieldsAt dfs j [] (.prim k bs)) := by
      simp [cleanCopyFold, hi, hj, hbs]
    simp only [List.map_cons]
    rw [hcc]

theorem lookupAssoc_nil {α : Type} (s d : Ty) :
    lookupAssoc ([] : List ((Ty × Ty) × α)) s d = none := rfl

/-- Full engine run, standard path (no optimized map registered): the result
is the plain field-copy fold over a clean identical-primitive TypeMap. -/
theorem mapValue_standard_clean (cfg : MapperConfig) (f : Nat)
    (snm dnm : String) (sfl dfl : FieldList) (sfs : ValueList) (tm : TypeMap)
    (hconv : cfg.converters = [])
    (hlookup : lookupAssoc cfg.typeMaps (.strct snm sfl) (.strct dnm dfl) = some tm)
    (hopt : lookupAssoc cfg.optimizedMaps (.strct snm sfl) (.strct dnm dfl) = none)
    (hsrc : tm.srcType = .strct snm sfl) (hdst : tm.destType = .strct dnm dfl)
    (hb : tm.beforeMap = []) (ha : tm.afterMap = []) (hc : tm.customMapper = none)
    (hmems : ∀ mm ∈ tm.memberMaps, CleanPrimMember (.strct snm sfl) (.strct dnm dfl) mm)
    (hs : PrimFieldsTyped (.strct snm sfl) (.strct sfs)) :
    mapValue cfg (f + 7) (.strct snm sfl) (.strct sfs) (.strct dnm dfl)
        (zeroValue (.strct dnm dfl))
      = (.strct (cleanCopyFold sfs tm.memberMaps (zeroFields dfl)), none) := by
  have hloop := memberLoop_cleanPrim cfg f snm dnm sfl dfl sfs hconv hs tm.memberMaps
    (zeroFields dfl) hmems (by simpa [zeroValue] using PrimFieldsTyped_zero dnm dfl)
  simp only [mapValue, derefTV, mapValueUnwrapped, hconv, lookupAssoc_nil, mapStruct,
    hlookup, hopt, mapStructStandard, hb, hc, ha, runHooks, List.foldl_nil, zeroValue,
    hsrc, hdst, hloop]

/-- Full engine run, specialized tier: the pre-built copy runs and produces
the plain field-copy fold. -/
theorem mapValue_specialized_clean (cfg : MapperConfig) (f : Nat)
    (snm dnm : String) (sfl dfl : FieldList) (sfs : ValueList) (tm : TypeMap)
    (oms : List MemberMapOptimized)
    (hconv : cfg.converters = [])
    (hlookup : lookupAssoc cfg.typeMaps (.strct snm sfl) (.strct dnm dfl) = some tm)
    (hopt : lookupAssoc cfg.optimizedMaps (.strct snm sfl) (.strct dnm dfl)
      = some { base := tm, optimizedMembers := oms,
               specializedFn := some (specializedMapperFn oms),
               allPrimitive := true, hasCustomLogic := false, compiled := true })
    (hlevel : decide (0 < cfg.optLevel.toNat) = true)
    (hb : tm.beforeMap = []) (ha : tm.afterMap = []) (hc : tm.customMapper = none)
    (homs : ∀ mmo ∈ oms, mmo.directAssign = true ∧ mmo.isPrimitive = true
        ∧ CleanPrimMember (.strct snm sfl) (.strct dnm dfl) mmo.base)
    (hs : PrimFieldsTyped (.strct snm sfl) (.strct sfs)) :
    mapValue cfg (f + 7) (.strct snm sfl) (.strct sfs) (.strct dnm dfl)
        (zeroValue (.strct dnm dfl))
      = (.strct (cleanCopyFold sfs (oms.map (·.base)) (zeroFields dfl)), none) := by
  have hloop := specLoop_cleanPrim snm dnm sfl dfl sfs hs oms (zeroFields dfl) homs
    (by simpa [zeroValue] using PrimFieldsTyped_zero dnm dfl)
  simp only [mapValue, derefTV, mapValueUnwrapped, hconv, lookupAssoc_nil, mapStruct,
    hlookup, hopt, hlevel, mapStructOptimized, hb, hc, ha, runHooks, List.foldl_nil,
    zeroValue, specializedMapperFn, hloop, List.isEmpty_nil, Bool.not_true, Bool.or_self,
    Option.isSome_none, Bool.or_false, Bool.not_false, if_true, Bool.true_and]

/-- Full engine run, raw (OptimizationUnsafe) tier: no specialized copy is
compiled, the raw member loop runs and produces the plain field-copy fold. -/
theorem mapValue_raw_clean (cfg : MapperConfig) (f : Nat)
    (snm dnm : String) (sfl dfl : FieldList) (sfs : ValueList) (tm : TypeMap)
    (oms : List MemberMapOptimized)
    (hconv : cfg.converters = [])
    (hlookup : lookupAssoc cfg.typeMaps (.strct snm sfl) (.strct dnm dfl) = some tm)
    (hopt : lookupAssoc cfg.optimizedMaps (.strct snm sfl) (.strct dnm dfl)
      = some { base := tm, optimizedMembers := oms, specializedFn := none,
               allPrimitive := true, hasCustomLogic := false, compiled := true })
    (hlevel : decide (0 < cfg.optLevel.toNat) = true)
    (hraw : cfg.useRaw = true)
    (hsrc : tm.srcType = .strct snm sfl) (hdst : tm.destType = .strct dnm dfl)
    (hb : tm.beforeMap = []) (ha : tm.afterMap = []) (hc : tm.customMapper = none)
    (homs : ∀ mmo ∈ oms, mmo.directAssign = true ∧ mmo.isPrimitive = true
        ∧ CleanPrimMember (.strct snm sfl) (.strct dnm dfl) mmo.base)
    (hs : PrimFieldsTyped (.strct snm sfl) (.strct sfs)) :
    mapValue cfg (f + 7) (.strct snm sfl) (.strct sfs) (.strct dnm dfl)
        (zeroValue (.strct dnm dfl))
      = (.strct (cleanCopyFold sfs (oms.map (·.base)) (zeroFields dfl)), none) := by
  have hloop : List.foldl
      (memberRawFoldStep cfg (f + 3) (.strct snm sfl) (.strct sfs) (.strct dnm dfl))
      (.strct (zeroFields dfl), none) oms
      = (.strct (cleanCopyFold sfs (oms.map (·.base)) (zeroFields dfl)), none) :=
    rawLoop_cleanPrim cfg (f + 1) snm dnm sfl dfl sfs hs oms (zeroFields dfl) homs
  simp only [mapValue, derefTV, mapValueUnwrapped, hconv, lookupAssoc_nil, mapStruct,
    hlookup, hopt, hlevel, mapStructOptimized, hb, hc, ha, runHooks, List.foldl_nil,
    zeroValue, hraw, hsrc, hdst, hloop, if_true]
  rfl

/-- The TypeMap CreateMap builds for a struct pair: auto-configured member
rules, no hooks, no custom transform. -/
def autoTypeMap (srcTy destTy : Ty) : TypeMap :=
  { srcType := srcTy, destType := destTy,
    memberMaps := autoConfigureMembers srcTy destTy }

/-- C1 (amended): optimization-tier equivalence holds for CreateMap-built
mappings whose auto-configured rules all copy between identically typed
primitive fields (and whose source value carries the declared kinds): the
results under tier Specialized and under tier Unsafe both equal the result
under tier None.  The original claim, which required only an all-primitive
pair, fails: see the counterexample with int and int8 fields. -/
theorem c1_amended (f : Nat)
    (snm dnm : String) (sfl dfl : FieldList) (sfs : ValueList)
    (hmems : ∀ mm ∈ autoConfigureMembers (.strct snm sfl) (.strct dnm dfl),
      CleanPrimMember (.strct snm sfl) (.strct dnm dfl) mm)
    (hs : PrimFieldsTyped (.strct snm sfl) (.strct sfs)) :
    mapTop (createMapM (withSpecializedMappers newMapperConfig)
        (.strct snm sfl) (.strct dnm dfl)).1 (f + 7)
        (.strct snm sfl) (.strct sfs) (.strct dnm dfl)
      = mapTop (createMapM newMapperConfig (.strct snm sfl) (.strct dnm dfl)).1 (f + 7)
        (.strct snm sfl) (.strct sfs) (.strct dnm dfl)
    ∧ mapTop (createMapM (withOptimizationLevel .optRaw newMapperConfig)
        (.strct snm sfl) (.strct dnm dfl)).1 (f + 7)
        (.strct snm sfl) (.strct sfs) (.strct dnm dfl)
      = mapTop (createMapM newMapperConfig (.strct snm sfl) (.strct dnm dfl)).1 (f + 7)
        (.strct snm sfl) (.strct sfs) (.strct dnm dfl) := by
  have htm : ∀ mm ∈ (autoTypeMap (.strct snm sfl) (.strct dnm dfl)).memberMaps,
      CleanPrimMember (.strct snm sfl) (.strct dnm dfl) mm := hmems
  have hN := mapValue_standard_clean
    (createMapM newMapperConfig (.strct snm sfl) (.strct dnm dfl)).1 f snm dnm sfl dfl sfs
    (autoTypeMap (.strct snm sfl) (.strct dnm dfl))
    rfl
    (lookupAssoc_insertAssoc_self [] (.strct snm sfl, .strct dnm dfl) _)
    rfl rfl rfl rfl rfl rfl htm hs
  obtain ⟨omsS, hcompS, hbasesS, hpropsS⟩ := compileOptimizedTypeMap_clean
    (autoTypeMap (.strct snm sfl) (.strct dnm dfl)) .optSpecialized htm rfl rfl rfl
  have hcompS' : compileOptimizedTypeMap (autoTypeMap (.strct snm sfl) (.strct dnm dfl))
      .optSpecialized
      = { base := autoTypeMap (.strct snm sfl) (.strct dnm dfl), optimizedMembers := omsS,
          specializedFn := some (specializedMapperFn omsS),
          allPrimitive := true, hasCustomLogic := false, compiled := true } := by
    rw [hcompS]
    rfl
  have hoptS : lookupAssoc (createMapM (withSpecializedMappers newMapperConfig)
        (.strct snm sfl) (.strct dnm dfl)).1.optimizedMaps
        (.strct snm sfl) (.strct dnm dfl)
      = some (compileOptimizedTypeMap
          (autoTypeMap (.strct snm sfl) (.strct dnm dfl)) .optSpecialized) :=
    lookupAssoc_insertAssoc_self [] (.strct snm sfl, .strct dnm dfl) _
  rw [hcompS'] at hoptS
  have hS := mapValue_specialized_clean
    (createMapM (withSpecializedMappers newMapperConfig)
      (.strct snm sfl) (.strct dnm dfl)).1 f snm dnm sfl dfl sfs
    (autoTypeMap (.strct snm sfl) (.strct dnm dfl)) omsS
    rfl
    (lookupAssoc_insertAssoc_self [] (.strct snm sfl, .strct dnm dfl) _)
    hoptS rfl rfl rfl rfl hpropsS hs
  obtain ⟨omsU, hcompU, hbasesU, hpropsU⟩ := compileOptimizedTypeMap_clean
    (autoTypeMap (.strct snm sfl) (.strct dnm dfl)) .optRaw htm rfl rfl rfl
  have hcompU' : compileOptimizedTypeMap (autoTypeMap (.strct snm sfl) (.strct dnm dfl))
      .optRaw
      = { base := autoTypeMap (.strct snm sfl) (.strct dnm dfl), optimizedMembers := omsU,
          specializedFn := none,
          allPrimitive := true, hasCustomLogic := false, compiled := true } := by
    rw [hcompU]
    rfl
  have hoptU : lookupAssoc (createMapM (withOptimizationLevel .optRaw newMapperConfig)
        (.strct snm sfl) (.strct dnm dfl)).1.optimizedMaps
        (.strct snm sfl) (.strct dnm dfl)
      = some (compileOptimizedTypeMap
          (autoTypeMap (.strct snm sfl) (.strct dnm dfl)) .optRaw) :=
    lookupAssoc_insertAssoc_self [] (.strct snm sfl, .strct dnm dfl) _
  rw [hcompU'] at hoptU
  have hU := mapValue_raw_clean
    (createMapM (withOptimizationLevel .optRaw newMapperConfig)
      (.strct snm sfl) (.strct dnm dfl)).1 f snm dnm sfl dfl sfs
    (autoTypeMap (.strct snm sfl) (.strct dnm dfl)) omsU
    rfl
    (lookupAssoc_insertAssoc_self [] (.strct snm sfl, .strct dnm dfl) _)
    hoptU rfl rfl rfl rfl rfl rfl rfl hpropsU hs
  simp only [mapTop]
  rw [hN, hS, hU, hbasesS, hbasesU]
  exact ⟨rfl, rfl⟩

def c1S : Ty := .strct "S" (.cons "A" false (.prim .int) .nil)
def c1D : Ty := .strct "D" (.cons "A" false (.prim .int8) .nil)
def c1src : Value := .strct (.cons (.prim .int 5) .nil)
def c1cfgN : MapperConfig := (createMapM newMapperConfig c1S c1D).1
def c1cfgS : MapperConfig := (createMapM (withSpecializedMappers newMapperConfig) c1S c1D).1

/-- C1 counterexample to the claim as stated: S { A int } and D { A int8 } is
an all-primitive pair with no custom rules, hooks, resolvers, converters or
conditions, yet for source { A = 5 } tier None converts and produces
D { A = 5 } with no error, while tier Specialized's pre-built copy refuses
the kind mismatch (reflect Set panics), leaving the zero destination and an
error: the destinations differ. -/
theorem c1_counterexample :
    mapTop c1cfgN 20 c1S c1src c1D
      = (.strct (.cons (.prim .int8 5) .nil), none)
    ∧ (mapTop c1cfgS 20 c1S c1src c1D).1 = .strct (.cons (.prim .int8 0) .nil)
    ∧ (mapTop c1cfgS 20 c1S c1src c1D).2.isSome = true
    ∧ (mapTop c1cfgS 20 c1S c1src c1D).1 ≠ (mapTop c1cfgN 20 c1S c1src c1D).1 :=
  ⟨rfl, rfl, rfl, by decide⟩

/-- Witness for C1 (amended) at a concrete identically typed pair. -/
theorem c1_witness :
    mapTop (createMapM (withSpecializedMappers newMapperConfig)
        (.strct "S" (.cons "A" false (.prim .int) .nil))
        (.strct "D" (.cons "A" false (.prim .int) .nil))).1 7
        (.strct "S" (.cons "A" false (.prim .int) .nil))
        (.strct (.cons (.prim .int 7) .nil))
        (.strct "D" (.cons "A" false (.prim .int) .nil))
      = mapTop (createMapM newMapperConfig
        (.strct "S" (.cons "A" false (.prim .int) .nil))
        (.strct "D" (.cons "A" false (.prim .int) .nil))).1 7
        (.strct "S" (.cons "A" false (.prim .int) .nil))
        (.strct (.cons (.prim .int 7) .nil))
        (.strct "D" (.cons "A" false (.prim .int) .nil))
    ∧ mapTop (createMapM (withOptimizationLevel .optRaw newMapperConfig)
        (.strct "S" (.cons "A" false (.prim .int) .nil))
        (.strct "D" (.cons "A" false (.prim .int) .nil))).1 7
        (.strct "S" (.cons "A" false (.prim .int) .nil))
        (.strct (.cons (.prim .int 7) .nil))
        (.strct "D" (.cons "A" false (.prim .int) .nil))
      = mapTop (createMapM newMapperConfig
        (.strct "S" (.cons "A" false (.prim .int) .nil))
        (.strct "D" (.cons "A" false (.prim .int) .nil))).1 7
        (.strct "S" (.cons "A" false (.prim .int) .nil))
        (.strct (.cons (.prim .int 7) .nil))
        (.strct "D" (.cons "A" false (.prim .int) .nil)) :=
  c1_amended 0 "S" "D"
    (.cons "A" false (.prim .int) .nil) (.cons "A" false (.prim .int) .nil)
    (.cons (.prim .int 7) .nil)
    (by
      intro mm hmm
      have hl : autoConfigureMembers (.strct "S" (.cons "A" false (.prim .int) .nil))
          (.strct "D" (.cons "A" false (.prim .int) .nil))
          = [{ destField := "A", destFieldIdx := [0],
               srcField := "A", srcFieldIdx := [0] }] := rfl
      rw [hl, List.mem_singleton] at hmm
      subst hmm
      exact ⟨rfl, rfl, rfl, rfl, 0, 0, .int, rfl, rfl, ⟨"A", false, rfl⟩, ⟨"A", false, rfl⟩⟩)
    (by
      intro i n a k h
      match i with
      | 0 =>
        simp only [tyField, fieldDeclAt, Option.some.injEq, Prod.mk.injEq] at h
        obtain ⟨-, -, hk⟩ := h
        injection hk with hk2
        exact ⟨7, by cases hk2; rfl⟩
      | i + 1 => simp [tyField, fieldDeclAt] at h)
